import Mathlib

/-!
Verification of the rend-http repository: the retrying HTTP cache-backend
adapter (package `httph`, file `handler.go`) and the live-tunable dynamic
configuration store (package `config`).

The Go code is shallowly embedded: the config store's map is an association
list whose keys are unique (the invariant of a Go map), HTTP I/O is abstracted
by an oracle `Env` giving the result of the n-th backend call and the value
observed by the n-th config read, and each adapter operation is a pure
function that additionally returns the final read/call counters and a trace
of observable events (config reads, backoff sleeps, HTTP calls).
-/

set_option autoImplicit false

namespace config

/-- Go: `type conf map[string]int` (config.go line 31).  A Go map with
`string` keys is embedded as an association list with unique keys; lookups
take the first (hence only) matching binding. -/
abbrev conf := List (String × Int)

/-- Map indexing `c[key]` with comma-ok: `v, ok := c[key]`. -/
def confLookup : conf → String → Option Int
  | [], _ => none
  | (k', v') :: rest, k => if k' = k then some v' else confLookup rest k

/-- Map assignment `c[key] = v`: replaces the unique existing binding or,
when absent, adds a new one. -/
def mapAssign : conf → String → Int → conf
  | [], k, v => [(k, v)]
  | (k', v') :: rest, k, v =>
    if k' = k then (k, v) :: rest else (k', v') :: mapAssign rest k v

/-- Go: `copyConf` (config.go lines 33-39) — makes a fresh empty map and
inserts every entry of the original into it. -/
def copyConf (orig : conf) : conf :=
  orig.foldl (fun ret p => mapAssign ret p.1 p.2) []

/-- Go: `config.Get(key, otherwise)` (config.go lines 126-134), reading the
given published snapshot. -/
def Get (c : conf) (key : String) (otherwise : Int) : Int :=
  match confLookup c key with
  | some v => v
  | none => otherwise

/-- Go: `strings.TrimSpace`, on character lists (ASCII whitespace; the Go
original also strips some rarer Unicode space characters, which no claim
exercises). -/
def trimSpaceL (cs : List Char) : List Char :=
  ((cs.dropWhile Char.isWhitespace).reverse.dropWhile Char.isWhitespace).reverse

/-- Helper for `strings.TrimPrefix`: removes `pre` from the front of the
list if it is there, returning `none` otherwise. -/
def dropPre : List Char → List Char → Option (List Char)
  | [], rest => some rest
  | _ :: _, [] => none
  | p :: ps, c :: cs => if c = p then dropPre ps cs else none

/-- Go: `strings.TrimPrefix(s, pre)` — `s` without the leading `pre` when
present, `s` unchanged otherwise. -/
def trimPrefixL (s pre : List Char) : List Char :=
  match dropPre pre s with
  | some rest => rest
  | none => s

/-- The key extraction both branches of `handleConfig` perform:
`strings.TrimSpace(strings.TrimPrefix(r.URL.Path, endpointPath))` with
`endpointPath = "/config"` (config.go lines 62 and 91). -/
def pathKey (path : String) : List Char :=
  trimSpaceL (trimPrefixL path.data "/config".data)

/-- Value of one digit character. -/
def digitVal (c : Char) : Nat := c.toNat - 48

/-- Decimal value of a digit string. -/
def digitsToNat (cs : List Char) : Nat :=
  cs.foldl (fun acc c => acc * 10 + digitVal c) 0

/-- Go: `strconv.Atoi` — optional sign, at least one decimal digit, nothing
else, and the value must fit a 64-bit signed int (out-of-range input makes
Atoi return an error). -/
def atoi (s : String) : Option Int :=
  let signed : Bool × List Char :=
    match s.data with
    | '-' :: rest => (true, rest)
    | '+' :: rest => (false, rest)
    | cs => (false, cs)
  match signed with
  | (neg, ds) =>
    if ds ≠ [] ∧ ds.all Char.isDigit then
      let v : Int := if neg then -(digitsToNat ds : Int) else (digitsToNat ds : Int)
      if -9223372036854775808 ≤ v ∧ v < 9223372036854775808 then some v else none
    else none

/-- An HTTP response as produced by the handler: the status written (200 when
the handler never calls `WriteHeader`) and the accumulated body text. -/
structure HTTPResponse where
  status : Nat
  body : String
  deriving DecidableEq, Repr

/-- Body of the read-all branch: one `"<name> <value>\n"` line per entry
(Go map iteration order is arbitrary; the embedding uses list order). -/
def renderAll (c : conf) : String :=
  String.join (c.map fun p => p.1 ++ " " ++ toString p.2 ++ "\n")

/-- Go: `handleConfig` (config.go lines 50-123).  Inputs: the currently
published snapshot (`confHolder.Load()`), the request method and URL path,
and the result of reading the request body (`.error ()` models an I/O
failure in `ioutil.ReadAll`).  Output: the snapshot published when the
handler returns (unchanged except on a successful PUT) and the response. -/
def handleConfig (c : conf) (method path : String) (body : Except Unit String) :
    conf × HTTPResponse :=
  if method = "GET" then
    let key := pathKey path
    if key = [] ∨ key = ['/'] then
      (c, ⟨200, renderAll c⟩)
    else
      let k : String := ⟨key.drop 1⟩
      match confLookup c k with
      | some v => (c, ⟨200, k ++ " " ++ toString v ++ "\n"⟩)
      | none => (c, ⟨404, ""⟩)
  else if method = "PUT" then
    let key := pathKey path
    if key = [] ∨ key = ['/'] then
      (c, ⟨400, ""⟩)
    else
      let k : String := ⟨key.drop 1⟩
      match body with
      | .error _ => (c, ⟨500, ""⟩)
      | .ok raw =>
        match atoi raw with
        | none => (c, ⟨500, ""⟩)
        | some v => (mapAssign (copyConf c) k v, ⟨200, ""⟩)
  else
    (c, ⟨405, ""⟩)

end config

namespace httph

/-- Go: `NumTriesConfigName` (handler.go line 35). -/
def NumTriesConfigName : String := "numTries"

/-- Go: `DefaultNumTries` (handler.go line 39). -/
def DefaultNumTries : Int := 4

/-- Go: `RetryDelayMultiplierConfigName` (handler.go line 43). -/
def RetryDelayMultiplierConfigName : String := "retryDelayMultiplier"

/-- Go: `DefaultRetryDelayMultiplier` (handler.go line 47). -/
def DefaultRetryDelayMultiplier : Int := 10

/-- A byte slice (`[]byte`). -/
abbrev Bytes := List UInt8

/-- The outcome of one `h.client.Do(req)` round trip:
either a transport-level error, or a response with its status code, the
bytes its body yields, and whether draining the body fails (`io.Copy` /
`ioutil.ReadAll` returning an error). -/
inductive CallResult where
  | transportErr : CallResult
  | resp (status : Nat) (body : Bytes) (readErr : Bool) : CallResult
  deriving DecidableEq

/-- The errors the handler returns: the transport error from `client.Do`
propagated verbatim, the body-drain error propagated verbatim,
`common.ErrInternal`, and `common.ErrUnknownCmd`. -/
inductive HErr where
  | transport
  | bodyRead
  | internal
  | unknownCmd
  deriving DecidableEq, Repr

/-- Observable events of one adapter operation, in order of occurrence:
a `config.Get` call together with the value it returned, the
`<-time.After(...)` backoff wait with its duration in milliseconds, and one
HTTP round trip (`client.Do`) with its zero-based index and outcome. -/
inductive Ev where
  | confRead (name : String) (value : Int)
  | sleep (ms : Int)
  | httpCall (idx : Nat) (result : CallResult)
  deriving DecidableEq

/-- The environment an operation runs against: `store r name dflt` is the
value `config.Get(name, dflt)` observes at the r-th config read of the
operation (the store is live and may change between reads), and
`backend n` is the outcome of the operation's n-th HTTP call.  When the
published snapshot is a fixed `c`, `store = fun r name d => config.Get c
name d`. -/
structure Env where
  store : Nat → String → Int → Int
  backend : Nat → CallResult

/-- Counters threaded through an operation: config reads and HTTP calls
performed so far. -/
structure St where
  reads : Nat
  calls : Nat
  deriving DecidableEq, Repr

/-- One `config.Get(name, dflt)` call against the live store. -/
def configGetAt (env : Env) (s : St) (name : String) (dflt : Int) :
    Int × St × List Ev :=
  (env.store s.reads name dflt, ⟨s.reads + 1, s.calls⟩,
    [.confRead name (env.store s.reads name dflt)])

/-- Go: `retryDelay(try)` (handler.go lines 50-56): nothing on the first
attempt; otherwise read the multiplier fresh from the config store and wait
`time.Duration(try) * time.Millisecond * time.Duration(mult)`, i.e.
`try * mult` milliseconds. -/
def retryDelay (env : Env) (s : St) (tryIdx : Nat) : St × List Ev :=
  if 0 < tryIdx then
    match configGetAt env s RetryDelayMultiplierConfigName DefaultRetryDelayMultiplier with
    | (mult, s', tr) => (s', tr ++ [.sleep ((tryIdx : Int) * mult)])
  else (s, [])

/-- One `h.client.Do(req)` round trip. -/
def doCall (env : Env) (s : St) : CallResult × St × List Ev :=
  (env.backend s.calls, ⟨s.reads, s.calls + 1⟩,
    [.httpCall s.calls (env.backend s.calls)])

/-- The body of Set's retry loop `for i := 0; i < tries; i++` (handler.go
lines 95-123), with `fuel` the remaining iterations: backoff, PUT, drain the
body (an `io.Copy` error is returned), then 2xx → success, 400/500 →
`common.ErrInternal` without retry, anything else → next iteration; a loop
that runs out of iterations returns `common.ErrInternal` (line 125). -/
def setAttempts (env : Env) : Nat → Nat → St → (Except HErr Unit) × St × List Ev
  | 0, _, s => (.error .internal, s, [])
  | fuel + 1, i, s =>
    match retryDelay env s i with
    | (s₁, tr₁) =>
      match doCall env s₁ with
      | (.transportErr, s₂, tr₂) => (.error .transport, s₂, tr₁ ++ tr₂)
      | (.resp status _body readErr, s₂, tr₂) =>
        if readErr then (.error .bodyRead, s₂, tr₁ ++ tr₂)
        else if 200 ≤ status ∧ status < 300 then (.ok (), s₂, tr₁ ++ tr₂)
        else if status = 400 ∨ status = 500 then (.error .internal, s₂, tr₁ ++ tr₂)
        else
          match setAttempts env fuel (i + 1) s₂ with
          | (r, s₃, tr₃) => (r, s₃, tr₁ ++ tr₂ ++ tr₃)

/-- Go: `Handler.Set` (handler.go lines 85-126).  The URL and request body
carry no control flow, so the model keeps only the retry loop: read
`numTries` once, then run the attempts. -/
def Set (env : Env) : (Except HErr Unit) × St × List Ev :=
  match configGetAt env ⟨0, 0⟩ NumTriesConfigName DefaultNumTries with
  | (tries, s, tr₀) =>
    match setAttempts env tries.toNat 0 s with
    | (r, s', tr) => (r, s', tr₀ ++ tr)

/-- The body of Delete's retry loop (handler.go lines 138-163): like Set's
but only 500 is terminal without retry (no 400 shortcut). -/
def deleteAttempts (env : Env) : Nat → Nat → St → (Except HErr Unit) × St × List Ev
  | 0, _, s => (.error .internal, s, [])
  | fuel + 1, i, s =>
    match retryDelay env s i with
    | (s₁, tr₁) =>
      match doCall env s₁ with
      | (.transportErr, s₂, tr₂) => (.error .transport, s₂, tr₁ ++ tr₂)
      | (.resp status _body readErr, s₂, tr₂) =>
        if readErr then (.error .bodyRead, s₂, tr₁ ++ tr₂)
        else if 200 ≤ status ∧ status < 300 then (.ok (), s₂, tr₁ ++ tr₂)
        else if status = 500 then (.error .internal, s₂, tr₁ ++ tr₂)
        else
          match deleteAttempts env fuel (i + 1) s₂ with
          | (r, s₃, tr₃) => (r, s₃, tr₁ ++ tr₂ ++ tr₃)

/-- Go: `Handler.Delete` (handler.go lines 129-166). -/
def Delete (env : Env) : (Except HErr Unit) × St × List Ev :=
  match configGetAt env ⟨0, 0⟩ NumTriesConfigName DefaultNumTries with
  | (tries, s, tr₀) =>
    match deleteAttempts env tries.toNat 0 s with
    | (r, s', tr) => (r, s', tr₀ ++ tr)

/-- Go: `common.GetRequest`, restricted to the fields the handler reads:
the ordered keys and the parallel opaque and quiet sequences. -/
structure GetRequest where
  keys : List Bytes
  opaques : List Nat
  quiet : List Bool
  deriving DecidableEq

/-- Go: `common.GetResponse` as the handler builds it (`Flags` is always 0,
`Data` is nil on a miss; the Go field `Opaque` is named `opq` here because
`opaque` is reserved in Lean). -/
structure GetResponse where
  miss : Bool
  quiet : Bool
  opq : Nat
  flags : Nat
  key : Bytes
  data : Bytes
  deriving DecidableEq

/-- How processing one key ends: a value sent on `dataOut` (hit or miss)
followed by `continue outer`; an error sent on `errorOut` followed by
`return`; or a runtime panic from indexing `cmd.Quiet[idx]` /
`cmd.Opaques[idx]` out of range. -/
inductive KeyStep where
  | hit (r : GetResponse)
  | halt (e : HErr)
  | panicOut
  deriving DecidableEq

/-- The inner retry loop of `realHandleGet` for one key (handler.go lines
190-237): backoff, GET, read the whole body (the read error is discarded —
`data, err := ioutil.ReadAll` is never checked), then 200 → hit, 404 →
miss, 500 → `common.ErrInternal` and stop, anything else → next iteration;
an exhausted loop sends `common.ErrInternal` and stops (lines 239-240). -/
def getAttempts (env : Env) (cmd : GetRequest) (idx : Nat) (key : Bytes) :
    Nat → Nat → St → KeyStep × St × List Ev
  | 0, _, s => (.halt .internal, s, [])
  | fuel + 1, i, s =>
    match retryDelay env s i with
    | (s₁, tr₁) =>
      match doCall env s₁ with
      | (.transportErr, s₂, tr₂) => (.halt .transport, s₂, tr₁ ++ tr₂)
      | (.resp status body _readErr, s₂, tr₂) =>
        if status = 200 then
          match cmd.quiet.get? idx, cmd.opaques.get? idx with
          | some q, some o =>
            (.hit ⟨false, q, o, 0, key, body⟩, s₂, tr₁ ++ tr₂)
          | _, _ => (.panicOut, s₂, tr₁ ++ tr₂)
        else if status = 404 then
          match cmd.quiet.get? idx, cmd.opaques.get? idx with
          | some q, some o =>
            (.hit ⟨true, q, o, 0, key, []⟩, s₂, tr₁ ++ tr₂)
          | _, _ => (.panicOut, s₂, tr₁ ++ tr₂)
        else if status = 500 then (.halt .internal, s₂, tr₁ ++ tr₂)
        else
          match getAttempts env cmd idx key fuel (i + 1) s₂ with
          | (r, s₃, tr₃) => (r, s₃, tr₁ ++ tr₂ ++ tr₃)

/-- Everything observed on the two channels returned by Get once both are
closed: the `GetResponse` values sent on `dataOut` in order, the at most
one error sent on `errorOut`, or a panic of the background goroutine
(out-of-range index), with the responses already streamed before it. -/
inductive GetOut where
  | out (responses : List GetResponse) (err : Option HErr)
  | panicked (responses : List GetResponse)
  deriving DecidableEq

/-- Go: the `outer` loop of `realHandleGet` (handler.go lines 180-241) over
the remaining keys, `idx` being the position of the first of them in
`cmd.Keys`: per key, read `numTries` once, run the inner retry loop, emit
the hit/miss and move on, or emit the error and stop. -/
def realHandleGet (env : Env) (cmd : GetRequest) :
    Nat → List Bytes → St → GetOut × St × List Ev
  | _, [], s => (.out [] none, s, [])
  | idx, key :: rest, s =>
    match configGetAt env s NumTriesConfigName DefaultNumTries with
    | (tries, s₁, tr₁) =>
      match getAttempts env cmd idx key tries.toNat 0 s₁ with
      | (.halt e, s₂, tr₂) => (.out [] (some e), s₂, tr₁ ++ tr₂)
      | (.panicOut, s₂, tr₂) => (.panicked [], s₂, tr₁ ++ tr₂)
      | (.hit r, s₂, tr₂) =>
        match realHandleGet env cmd (idx + 1) rest s₂ with
        | (.out rs e, s₃, tr₃) => (.out (r :: rs) e, s₃, tr₁ ++ tr₂ ++ tr₃)
        | (.panicked rs, s₃, tr₃) => (.panicked (r :: rs), s₃, tr₁ ++ tr₂ ++ tr₃)

/-- Go: `Handler.Get` (handler.go lines 169-174): spawns `realHandleGet`
over all keys from index 0. -/
def Get (env : Env) (cmd : GetRequest) : GetOut × St × List Ev :=
  realHandleGet env cmd 0 cmd.keys ⟨0, 0⟩

/-- A channel as far as GetE's caller can observe it: the values buffered
in it and whether it has been closed. -/
structure ChanState (α : Type) where
  buffered : List α
  closed : Bool
  deriving DecidableEq

/-- `make(chan α, n)`: empty and open (capacity does not affect the
observable contents here). -/
def mkChan (α : Type) : ChanState α := ⟨[], false⟩

/-- A buffered send `ch <- v`. -/
def chanSend {α : Type} (ch : ChanState α) (v : α) : ChanState α :=
  { ch with buffered := ch.buffered ++ [v] }

/-- Go: `Handler.GetE` (handler.go lines 275-279): a nil result channel
(modelled as `none`) and a fresh error channel holding one buffered
`common.ErrUnknownCmd`, returned without ever being closed. -/
def GetE : Option Unit × ChanState HErr :=
  let errchan := mkChan HErr
  let errchan := chanSend errchan .unknownCmd
  (none, errchan)

/-- Number of HTTP calls recorded in a trace. -/
def countCalls : List Ev → Nat
  | [] => 0
  | .httpCall _ _ :: tr => countCalls tr + 1
  | _ :: tr => countCalls tr

/-- Number of backoff waits recorded in a trace. -/
def countSleeps : List Ev → Nat
  | [] => 0
  | .sleep _ :: tr => countSleeps tr + 1
  | _ :: tr => countSleeps tr

/-- Number of config reads of the given setting recorded in a trace. -/
def countReadsOf (name : String) : List Ev → Nat
  | [] => 0
  | .confRead n _ :: tr => (if n = name then 1 else 0) + countReadsOf name tr
  | _ :: tr => countReadsOf name tr

/-- A response on which Set's loop goes to the next iteration: the body
drains, the status is not 2xx and is neither 400 nor 500. -/
def retryableSet (r : CallResult) : Prop :=
  match r with
  | .transportErr => False
  | .resp status _ readErr =>
    readErr = false ∧ ¬(200 ≤ status ∧ status < 300) ∧ ¬(status = 400 ∨ status = 500)

instance : DecidablePred retryableSet := fun r => by
  unfold retryableSet
  cases r <;> infer_instance

/-- A response on which Delete's loop goes to the next iteration: the body
drains, the status is not 2xx and is not 500. -/
def retryableDelete (r : CallResult) : Prop :=
  match r with
  | .transportErr => False
  | .resp status _ readErr =>
    readErr = false ∧ ¬(200 ≤ status ∧ status < 300) ∧ status ≠ 500

instance : DecidablePred retryableDelete := fun r => by
  unfold retryableDelete
  cases r <;> infer_instance

/-- A response on which Get's inner loop goes to the next iteration: any
status other than 200, 404 and 500 (the body-read error is ignored). -/
def retryableGet (r : CallResult) : Prop :=
  match r with
  | .transportErr => False
  | .resp status _ _ => status ≠ 200 ∧ status ≠ 404 ∧ status ≠ 500

instance : DecidablePred retryableGet := fun r => by
  unfold retryableGet
  cases r <;> infer_instance

/-- A response Set's/Delete's loop accepts as success: body drains, 2xx. -/
def resolves2xx (r : CallResult) : Prop :=
  match r with
  | .transportErr => False
  | .resp status _ readErr => readErr = false ∧ 200 ≤ status ∧ status < 300

instance : DecidablePred resolves2xx := fun r => by
  unfold resolves2xx
  cases r <;> infer_instance

/-- A response Get's inner loop resolves on: status 200 (hit) or 404 (miss). -/
def getResolves (r : CallResult) : Prop :=
  match r with
  | .transportErr => False
  | .resp status _ _ => status = 200 ∨ status = 404

instance : DecidablePred getResolves := fun r => by
  unfold getResolves
  cases r <;> infer_instance

/-- The spec-side description of the entry Get streams for one key, given
the caller data at that key's index and the backend response that resolved
it: a 200 response gives a hit carrying the response body, anything else
(used only at 404) gives a miss carrying no payload; opaque and quiet echo
the caller's values. -/
def keyHit (key : Bytes) (q : Bool) (o : Nat) : CallResult → GetResponse
  | .resp st body _ => if st = 200 then ⟨false, q, o, 0, key, body⟩ else ⟨true, q, o, 0, key, []⟩
  | .transportErr => ⟨true, q, o, 0, key, []⟩

/-- The spec-side description of Get's whole result stream when every
backend call resolves immediately: one entry per key, in input order, the
entry for the key at position `idx` built from the caller data at `idx` and
the backend response to the call with index `callBase`. -/
def expectedHits (env : Env) (cmd : GetRequest) : Nat → Nat → List Bytes → List GetResponse
  | _, _, [] => []
  | idx, callBase, key :: rest =>
    keyHit key (cmd.quiet.getD idx false) (cmd.opaques.getD idx 0) (env.backend callBase) ::
      expectedHits env cmd (idx + 1) (callBase + 1) rest

/-- How many keys `realHandleGet` started processing, out of `remaining`
keys handed to it: all of them on a clean run, the streamed ones plus the
one it died on otherwise. -/
def loopsStarted (remaining : Nat) : GetOut → Nat
  | .out _ none => remaining
  | .out rs (some _) => rs.length + 1
  | .panicked rs => rs.length + 1

/-- Whether the background goroutine panicked. -/
def isPanicked : GetOut → Bool
  | .panicked _ => true
  | .out _ _ => false

/-- State of the backoff checker walking a trace: how many HTTP calls of
the current retry loop have happened (a read of `numTries` starts a new
loop), whether the immediately preceding event was a multiplier read (and
its value), and whether every sleep so far was well-formed. -/
structure BSt where
  attempts : Nat
  lastMult : Option Int
  ok : Bool
  deriving DecidableEq

/-- One step of the backoff checker.  A sleep is well-formed iff it
immediately follows a fresh multiplier read, at least one attempt of the
current loop precedes it, and it lasts (attempts so far) × (the value just
read) milliseconds. -/
def backoffStep (b : BSt) : Ev → BSt
  | .confRead name v =>
    if name = NumTriesConfigName then ⟨0, none, b.ok⟩
    else if name = RetryDelayMultiplierConfigName then ⟨b.attempts, some v, b.ok⟩
    else ⟨b.attempts, none, b.ok⟩
  | .httpCall _ _ => ⟨b.attempts + 1, none, b.ok⟩
  | .sleep d =>
    match b.lastMult with
    | some m =>
      ⟨b.attempts, none, b.ok && (decide (1 ≤ b.attempts) && decide (d = (b.attempts : Int) * m))⟩
    | none => ⟨b.attempts, none, false⟩

/-- Run the backoff checker over a trace from a given state. -/
def backoffRun (b : BSt) (tr : List Ev) : BSt := tr.foldl backoffStep b

/-- Every sleep in the trace follows a fresh multiplier read, comes before
no attempt of its loop (i.e. not before the first attempt), and lasts
exactly (attempt index) × (freshly read multiplier) milliseconds. -/
def backoffOK (tr : List Ev) : Bool := (backoffRun ⟨0, none, true⟩ tr).ok

/-- State of the wait-occurrence checker walking a trace: how many HTTP
calls of the current retry loop have happened (a read of `numTries` starts
a new loop) and whether a sleep has occurred since the last call (or loop
start). -/
structure WSt where
  attempts : Nat
  waited : Bool
  ok : Bool
  deriving DecidableEq

/-- One step of the wait-occurrence checker.  A sleep may happen at most
once between calls; an HTTP call that is not the first of its loop must
have been preceded by a sleep since the previous call. -/
def waitStep (w : WSt) : Ev → WSt
  | .confRead name _ =>
    if name = NumTriesConfigName then ⟨0, false, w.ok⟩ else w
  | .sleep _ => ⟨w.attempts, true, w.ok && !w.waited⟩
  | .httpCall _ _ => ⟨w.attempts + 1, false, w.ok && (decide (w.attempts = 0) || w.waited)⟩

/-- Run the wait-occurrence checker over a trace from a given state. -/
def waitRun (w : WSt) (tr : List Ev) : WSt := tr.foldl waitStep w

/-- Exactly one backoff wait occurs before every retry attempt of every
retry loop in the trace (and none before a loop's first attempt beyond what
`backoffOK` already forbids): each HTTP call after the first of its loop is
preceded by one sleep since the previous call, and never by two. -/
def retryWaitOK (tr : List Ev) : Bool := (waitRun ⟨0, false, true⟩ tr).ok

end httph

/-! ### Lemmas about the configuration store -/

namespace config

theorem confLookup_mapAssign_self (c : conf) (k : String) (v : Int) :
    confLookup (mapAssign c k v) k = some v := by
  induction c with
  | nil => simp [mapAssign, confLookup]
  | cons p rest ih =>
    obtain ⟨k', v'⟩ := p
    by_cases h : k' = k
    · subst h
      simp [mapAssign, confLookup]
    · simp only [mapAssign, if_neg h, confLookup]
      exact ih

theorem confLookup_mapAssign_ne (c : conf) (k k' : String) (v : Int) (h : k' ≠ k) :
    confLookup (mapAssign c k v) k' = confLookup c k' := by
  induction c with
  | nil =>
    simp only [mapAssign, confLookup]
    rw [if_neg (fun hh => h hh.symm)]

  | cons p rest ih =>
    obtain ⟨k₀, v₀⟩ := p
    by_cases h0 : k₀ = k
    · subst h0
      simp only [mapAssign, if_pos rfl, confLookup]
      rw [if_neg (fun hh => h hh.symm), if_neg (fun hh => h hh.symm)]
    · simp only [mapAssign, if_neg h0, confLookup]
      by_cases h1 : k₀ = k'
      · rw [if_pos h1, if_pos h1]
      · rw [if_neg h1, if_neg h1]
        exact ih

theorem confLookup_eq_none_of_not_mem (c : conf) (k : String)
    (h : k ∉ c.map Prod.fst) : confLookup c k = none := by
  induction c with
  | nil => rfl
  | cons p rest ih =>
    obtain ⟨k₀, v₀⟩ := p
    simp only [List.map_cons, List.mem_cons] at h
    push_neg at h
    simp only [confLookup]
    rw [if_neg (fun hh => h.1 hh.symm)]
    exact ih h.2

theorem confLookup_foldAssign (c : conf) : ∀ (acc : conf),
    (c.map Prod.fst).Nodup →
    (∀ p ∈ c, confLookup acc p.1 = none) → ∀ k : String,
    (∀ v, confLookup c k = some v →
      confLookup (c.foldl (fun ret p => mapAssign ret p.1 p.2) acc) k = some v) ∧
    (confLookup c k = none →
      confLookup (c.foldl (fun ret p => mapAssign ret p.1 p.2) acc) k = confLookup acc k) := by
  induction c with
  | nil =>
    intro acc _ _ k
    constructor
    · intro v hv
      cases hv
    · intro _
      rfl
  | cons p rest ih =>
    intro acc hnd hacc k
    obtain ⟨a, w⟩ := p
    simp only [List.map_cons, List.nodup_cons] at hnd
    have hacc' : ∀ q ∈ rest, confLookup (mapAssign acc a w) q.1 = none := by
      intro q hq
      have hqa : q.1 ≠ a := by
        intro hh
        exact hnd.1 (hh ▸ List.mem_map_of_mem Prod.fst hq)
      rw [confLookup_mapAssign_ne _ _ _ _ hqa]
      exact hacc q (List.mem_cons_of_mem _ hq)
    have IH := ih (mapAssign acc a w) hnd.2 hacc'
    constructor
    · intro v hv
      simp only [confLookup] at hv
      by_cases hak : a = k
      · subst hak
        rw [if_pos rfl] at hv
        injection hv with hv
        subst hv
        have hrest : confLookup rest a = none :=
          confLookup_eq_none_of_not_mem rest a hnd.1
        simp only [List.foldl_cons]
        rw [(IH a).2 hrest]
        exact confLookup_mapAssign_self acc a _
      · rw [if_neg hak] at hv
        simp only [List.foldl_cons]
        exact (IH k).1 v hv
    · intro hv
      simp only [confLookup] at hv
      by_cases hak : a = k
      · rw [if_pos hak] at hv
        simp at hv
      · rw [if_neg hak] at hv
        simp only [List.foldl_cons]
        rw [(IH k).2 hv]
        exact confLookup_mapAssign_ne _ _ _ _ (fun hh => hak hh.symm)

theorem confLookup_copyConf (c : conf) (hnd : (c.map Prod.fst).Nodup) (k : String) :
    confLookup (copyConf c) k = confLookup c k := by
  have h := confLookup_foldAssign c [] hnd (fun p _ => rfl) k
  unfold copyConf
  cases hv : confLookup c k with
  | some v => exact h.1 v hv
  | none => rw [h.2 hv]; rfl

theorem data_ne_nil_of_ne_empty (k : String) (h : k ≠ "") : k.data ≠ [] := by
  intro hd
  exact h (String.ext hd)

theorem pathKey_concat (k : String)
    (hts : trimSpaceL ('/' :: k.data) = '/' :: k.data) :
    pathKey ("/config/" ++ k) = '/' :: k.data := by
  have hd : ("/config/" ++ k).data = ['/', 'c', 'o', 'n', 'f', 'i', 'g'] ++ ('/' :: k.data) := by
    rw [String.data_append]
    rfl
  have hdrop : dropPre "/config".data (['/', 'c', 'o', 'n', 'f', 'i', 'g'] ++ ('/' :: k.data)) =
      some ('/' :: k.data) := rfl
  unfold pathKey trimPrefixL
  rw [hd, hdrop]
  exact hts

theorem pathKey_cons_ne_nil (k : String) (hts : trimSpaceL ('/' :: k.data) = '/' :: k.data) :
    ¬(pathKey ("/config/" ++ k) = [] ∨ pathKey ("/config/" ++ k) = ['/']) ∨ k = "" := by
  by_cases hk : k = ""
  · exact Or.inr hk
  · left
    rw [pathKey_concat k hts]
    intro h
    rcases h with h | h
    · cases h
    · have : k.data = [] := by
        injection h
      exact data_ne_nil_of_ne_empty k hk this

theorem handleConfig_put_ok (c : conf) (k raw : String) (v : Int)
    (hk : k ≠ "") (hts : trimSpaceL ('/' :: k.data) = '/' :: k.data)
    (hv : atoi raw = some v) :
    handleConfig c "PUT" ("/config/" ++ k) (.ok raw) =
      (mapAssign (copyConf c) k v, ⟨200, ""⟩) := by
  have hpk := pathKey_concat k hts
  have hne : ¬(pathKey ("/config/" ++ k) = [] ∨ pathKey ("/config/" ++ k) = ['/']) := by
    rcases pathKey_cons_ne_nil k hts with h | h
    · exact h
    · exact absurd h hk
  unfold handleConfig
  rw [if_neg (by decide : ¬("PUT" : String) = "GET"), if_pos rfl, if_neg hne, hpk]
  simp only [List.drop_succ_cons, List.drop_zero]
  rw [hv]

theorem handleConfig_put_malformed (c : conf) (k raw : String)
    (hk : k ≠ "") (hts : trimSpaceL ('/' :: k.data) = '/' :: k.data)
    (hv : atoi raw = none) :
    handleConfig c "PUT" ("/config/" ++ k) (.ok raw) = (c, ⟨500, ""⟩) := by
  have hne : ¬(pathKey ("/config/" ++ k) = [] ∨ pathKey ("/config/" ++ k) = ['/']) := by
    rcases pathKey_cons_ne_nil k hts with h | h
    · exact h
    · exact absurd h hk
  unfold handleConfig
  rw [if_neg (by decide : ¬("PUT" : String) = "GET"), if_pos rfl, if_neg hne]
  simp only
  rw [hv]

theorem handleConfig_put_bodyErr (c : conf) (k : String)
    (hk : k ≠ "") (hts : trimSpaceL ('/' :: k.data) = '/' :: k.data) :
    handleConfig c "PUT" ("/config/" ++ k) (.error ()) = (c, ⟨500, ""⟩) := by
  have hne : ¬(pathKey ("/config/" ++ k) = [] ∨ pathKey ("/config/" ++ k) = ['/']) := by
    rcases pathKey_cons_ne_nil k hts with h | h
    · exact h
    · exact absurd h hk
  unfold handleConfig
  rw [if_neg (by decide : ¬("PUT" : String) = "GET"), if_pos rfl, if_neg hne]

theorem handleConfig_get_found (c : conf) (k : String) (v : Int)
    (hts : trimSpaceL ('/' :: k.data) = '/' :: k.data)
    (hk : k ≠ "") (hv : confLookup c k = some v) (body : Except Unit String) :
    handleConfig c "GET" ("/config/" ++ k) body =
      (c, ⟨200, k ++ " " ++ toString v ++ "\n"⟩) := by
  have hpk := pathKey_concat k hts
  have hne : ¬(pathKey ("/config/" ++ k) = [] ∨ pathKey ("/config/" ++ k) = ['/']) := by
    rcases pathKey_cons_ne_nil k hts with h | h
    · exact h
    · exact absurd h hk
  unfold handleConfig
  rw [if_pos rfl, if_neg hne, hpk]
  simp only [List.drop_succ_cons, List.drop_zero]
  rw [hv]

theorem handleConfig_get_missing (c : conf) (k : String)
    (hts : trimSpaceL ('/' :: k.data) = '/' :: k.data)
    (hk : k ≠ "") (hv : confLookup c k = none) (body : Except Unit String) :
    handleConfig c "GET" ("/config/" ++ k) body = (c, ⟨404, ""⟩) := by
  have hpk := pathKey_concat k hts
  have hne : ¬(pathKey ("/config/" ++ k) = [] ∨ pathKey ("/config/" ++ k) = ['/']) := by
    rcases pathKey_cons_ne_nil k hts with h | h
    · exact h
    · exact absurd h hk
  unfold handleConfig
  rw [if_pos rfl, if_neg hne, hpk]
  simp only [List.drop_succ_cons, List.drop_zero]
  rw [hv]

end config

/-! ### Claims about the configuration store -/

/-- C6: after writing integer value `v` for key `k` via the management PUT
endpoint, a subsequent read of `k` — via `config.Get` or via
`GET /config/<k>` — returns `v`; and for any key absent from the current
snapshot, `config.Get key fallback` returns the fallback without failing. -/
theorem claim_C6_config_roundtrip (c : config.conf) (k raw : String) (v : Int)
    (hk : k ≠ "") (hts : config.trimSpaceL ('/' :: k.data) = '/' :: k.data)
    (hv : config.atoi raw = some v) :
    (∀ fb : Int,
      config.Get (config.handleConfig c "PUT" ("/config/" ++ k) (.ok raw)).1 k fb = v) ∧
    (config.handleConfig (config.handleConfig c "PUT" ("/config/" ++ k) (.ok raw)).1
        "GET" ("/config/" ++ k) (.ok "")).2 =
      ⟨200, k ++ " " ++ toString v ++ "\n"⟩ ∧
    (∀ (key : String) (fb : Int),
      config.confLookup c key = none → config.Get c key fb = fb) := by
  rw [config.handleConfig_put_ok c k raw v hk hts hv]
  have hself := config.confLookup_mapAssign_self (config.copyConf c) k v
  refine ⟨fun fb => ?_, ?_, fun key fb hnone => ?_⟩
  · unfold config.Get
    rw [hself]
  · rw [config.handleConfig_get_found _ k v hts hk hself (.ok "")]
  · unfold config.Get
    rw [hnone]

/-- Witness for C6 at the spec's own example: writing `4` to key `foo` then
reading `foo` with fallback `17` returns `4`; reading unset `bar` with
fallback `17` returns `17`. -/
theorem claim_C6_witness :
    config.Get (config.handleConfig [] "PUT" ("/config/" ++ "foo") (.ok "4")).1 "foo" 17 = 4 ∧
    config.Get ([] : config.conf) "bar" 17 = 17 := by
  have h := claim_C6_config_roundtrip [] "foo" "4" 4 (by decide) (by decide) (by decide)
  exact ⟨h.1 17, h.2.2 "bar" 17 rfl⟩

/-- C7: the config management endpoint returns exactly these statuses:
`GET /config/<name>` gives 200 with body `"<name> <value>\n"` when present
and 404 with empty body when absent; `PUT /config/<name>` gives 200 on
success, 500 when the body is not the decimal text of an integer, 400 when
the name segment is missing, 500 on an I/O failure reading the body; any
method other than GET or PUT gives 405. -/
theorem claim_C7_config_endpoint_statuses :
    (∀ (c : config.conf) (k : String) (v : Int) (body : Except Unit String),
      k ≠ "" → config.trimSpaceL ('/' :: k.data) = '/' :: k.data →
      config.confLookup c k = some v →
      (config.handleConfig c "GET" ("/config/" ++ k) body).2 =
        ⟨200, k ++ " " ++ toString v ++ "\n"⟩) ∧
    (∀ (c : config.conf) (k : String) (body : Except Unit String),
      k ≠ "" → config.trimSpaceL ('/' :: k.data) = '/' :: k.data →
      config.confLookup c k = none →
      (config.handleConfig c "GET" ("/config/" ++ k) body).2 = ⟨404, ""⟩) ∧
    (∀ (c : config.conf) (k raw : String) (v : Int),
      k ≠ "" → config.trimSpaceL ('/' :: k.data) = '/' :: k.data →
      config.atoi raw = some v →
      (config.handleConfig c "PUT" ("/config/" ++ k) (.ok raw)).2 = ⟨200, ""⟩) ∧
    (∀ (c : config.conf) (k raw : String),
      k ≠ "" → config.trimSpaceL ('/' :: k.data) = '/' :: k.data →
      config.atoi raw = none →
      (config.handleConfig c "PUT" ("/config/" ++ k) (.ok raw)).2 = ⟨500, ""⟩) ∧
    (∀ (c : config.conf) (body : Except Unit String),
      (config.handleConfig c "PUT" "/config" body).2 = ⟨400, ""⟩ ∧
      (config.handleConfig c "PUT" "/config/" body).2 = ⟨400, ""⟩) ∧
    (∀ (c : config.conf) (k : String),
      k ≠ "" → config.trimSpaceL ('/' :: k.data) = '/' :: k.data →
      (config.handleConfig c "PUT" ("/config/" ++ k) (.error ())).2 = ⟨500, ""⟩) ∧
    (∀ (c : config.conf) (method path : String) (body : Except Unit String),
      method ≠ "GET" → method ≠ "PUT" →
      (config.handleConfig c method path body).2 = ⟨405, ""⟩) := by
  refine ⟨?_, ?_, ?_, ?_, ?_, ?_, ?_⟩
  · intro c k v body hk hts hv
    rw [config.handleConfig_get_found c k v hts hk hv body]
  · intro c k body hk hts hv
    rw [config.handleConfig_get_missing c k hts hk hv body]
  · intro c k raw v hk hts hv
    rw [config.handleConfig_put_ok c k raw v hk hts hv]
  · intro c k raw hk hts hv
    rw [config.handleConfig_put_malformed c k raw hk hts hv]
  · intro c body
    constructor
    · unfold config.handleConfig
      rw [if_neg (by decide : ¬("PUT" : String) = "GET"), if_pos rfl,
        if_pos (Or.inl (by rfl : config.pathKey "/config" = []))]
    · unfold config.handleConfig
      rw [if_neg (by decide : ¬("PUT" : String) = "GET"), if_pos rfl,
        if_pos (Or.inr (by rfl : config.pathKey "/config/" = ['/']))]
  · intro c k hk hts
    rw [config.handleConfig_put_bodyErr c k hk hts]
  · intro c method path body hg hp
    unfold config.handleConfig
    rw [if_neg hg, if_neg hp]

/-- Witness for C7, exercising every branch at concrete requests against the
snapshot `[("foo", 4)]`. -/
theorem claim_C7_witness :
    (config.handleConfig [("foo", 4)] "GET" ("/config/" ++ "foo") (.ok "")).2 =
      ⟨200, "foo 4\n"⟩ ∧
    (config.handleConfig [("foo", 4)] "GET" ("/config/" ++ "baz") (.ok "")).2 = ⟨404, ""⟩ ∧
    (config.handleConfig [("foo", 4)] "PUT" ("/config/" ++ "foo") (.ok "5")).2 = ⟨200, ""⟩ ∧
    (config.handleConfig [("foo", 4)] "PUT" ("/config/" ++ "foo") (.ok "xyz")).2 = ⟨500, ""⟩ ∧
    (config.handleConfig [("foo", 4)] "PUT" "/config" (.ok "5")).2 = ⟨400, ""⟩ ∧
    (config.handleConfig [("foo", 4)] "PUT" ("/config/" ++ "foo") (.error ())).2 = ⟨500, ""⟩ ∧
    (config.handleConfig [("foo", 4)] "DELETE" "/config/foo" (.ok "")).2 = ⟨405, ""⟩ := by
  have h := claim_C7_config_endpoint_statuses
  refine ⟨?_, ?_, ?_, ?_, ?_, ?_, ?_⟩
  · exact h.1 [("foo", 4)] "foo" 4 (.ok "") (by decide) (by decide) (by decide)
  · exact h.2.1 [("foo", 4)] "baz" (.ok "") (by decide) (by decide) (by decide)
  · exact h.2.2.1 [("foo", 4)] "foo" "5" 5 (by decide) (by decide) (by decide)
  · exact h.2.2.2.1 [("foo", 4)] "foo" "xyz" (by decide) (by decide) (by decide)
  · exact (h.2.2.2.2.1 [("foo", 4)] (.ok "5")).1
  · exact h.2.2.2.2.2.1 [("foo", 4)] "foo" (by decide) (by decide)
  · exact h.2.2.2.2.2.2 [("foo", 4)] "DELETE" "/config/foo" (.ok "") (by decide) (by decide)

/-- C8: a successful configuration write publishes
`mapAssign (copyConf c) k v`: the written key now maps to the new value and
every other key's value in the new snapshot equals its value in the
previous snapshot.  (The previously published snapshot is never mutated in
place: the new snapshot is built from `copyConf` of the old one, and values
are immutable in this embedding just as a published Go map is required to
be.) -/
theorem claim_C8_put_copy_frame (c : config.conf) (k raw : String) (v : Int)
    (hnd : (c.map Prod.fst).Nodup)
    (hk : k ≠ "") (hts : config.trimSpaceL ('/' :: k.data) = '/' :: k.data)
    (hv : config.atoi raw = some v) :
    (config.handleConfig c "PUT" ("/config/" ++ k) (.ok raw)).1 =
      config.mapAssign (config.copyConf c) k v ∧
    config.confLookup (config.handleConfig c "PUT" ("/config/" ++ k) (.ok raw)).1 k =
      some v ∧
    (∀ k' : String, k' ≠ k →
      config.confLookup (config.handleConfig c "PUT" ("/config/" ++ k) (.ok raw)).1 k' =
        config.confLookup c k') := by
  rw [config.handleConfig_put_ok c k raw v hk hts hv]
  refine ⟨rfl, config.confLookup_mapAssign_self _ k v, fun k' hne => ?_⟩
  rw [config.confLookup_mapAssign_ne _ k k' v hne]
  exact config.confLookup_copyConf c hnd k'

/-- Witness for C8: writing `7` to `foo` over `[("foo", 4), ("bar", 5)]`
updates `foo` and leaves `bar` at its previous value. -/
theorem claim_C8_witness :
    config.confLookup
      (config.handleConfig [("foo", 4), ("bar", 5)] "PUT" ("/config/" ++ "foo") (.ok "7")).1
      "foo" = some 7 ∧
    config.confLookup
      (config.handleConfig [("foo", 4), ("bar", 5)] "PUT" ("/config/" ++ "foo") (.ok "7")).1
      "bar" = some 5 := by
  have h := claim_C8_put_copy_frame [("foo", 4), ("bar", 5)] "foo" "7" 7
    (by decide) (by decide) (by decide) (by decide)
  exact ⟨h.2.1, (h.2.2 "bar" (by decide)).trans rfl⟩

/-! ### Lemmas about the adapter's retry loops -/

namespace httph

theorem retryDelay_zero (env : Env) (s : St) : retryDelay env s 0 = (s, []) := rfl

theorem retryDelay_pos (env : Env) (s : St) (i : Nat) (h : 0 < i) :
    retryDelay env s i =
      (⟨s.reads + 1, s.calls⟩,
        [.confRead RetryDelayMultiplierConfigName
            (env.store s.reads RetryDelayMultiplierConfigName DefaultRetryDelayMultiplier),
          .sleep ((i : Int) *
            env.store s.reads RetryDelayMultiplierConfigName DefaultRetryDelayMultiplier)]) := by
  unfold retryDelay configGetAt
  rw [if_pos h]
  rfl


theorem retryDelay_calls (env : Env) (s : St) (i : Nat) :
    (retryDelay env s i).1.calls = s.calls := by
  rcases Nat.eq_zero_or_pos i with h | h
  · subst h
    rfl
  · rw [retryDelay_pos env s i h]

theorem setAttempts_allRetryable (env : Env) :
    ∀ (fuel i : Nat) (s : St),
    (∀ j, j < fuel → retryableSet (env.backend (s.calls + j))) →
    (setAttempts env fuel i s).1 = .error .internal ∧
    (setAttempts env fuel i s).2.1.calls = s.calls + fuel := by
  intro fuel
  induction fuel with
  | zero =>
    intro i s _
    exact ⟨rfl, rfl⟩
  | succ n ih =>
    intro i s hr
    have h0 := hr 0 (Nat.succ_pos n)
    rw [Nat.add_zero] at h0
    rcases hrd : retryDelay env s i with ⟨s₁, tr₁⟩
    have hc : s₁.calls = s.calls := by
      have h := retryDelay_calls env s i
      rw [hrd] at h
      exact h
    cases hb : env.backend s.calls with
    | transportErr =>
      rw [hb] at h0
      exact absurd h0 (by simp [retryableSet])
    | resp st body re =>
      rw [hb] at h0
      obtain ⟨hre, h2xx, h45⟩ := h0
      subst hre
      rcases hrec : setAttempts env n (i + 1) ⟨s₁.reads, s.calls + 1⟩ with ⟨r, s₃, tr₃⟩
      have IH := ih (i + 1) ⟨s₁.reads, s.calls + 1⟩ (by
        intro j hj
        have heq : (⟨s₁.reads, s.calls + 1⟩ : St).calls + j = s.calls + (j + 1) := by
          simp only []
          omega
        rw [heq]
        exact hr (j + 1) (Nat.succ_lt_succ hj))
      rw [hrec] at IH
      simp only [setAttempts, hrd, doCall, hc, hb, Bool.false_eq_true, if_false,
        if_neg h2xx, if_neg h45, hrec]
      exact ⟨IH.1, by
        have := IH.2
        simp only [] at this
        omega⟩

theorem setAttempts_resolve (env : Env) :
    ∀ (k fuel i : Nat) (s : St), k < fuel →
    (∀ j, j < k → retryableSet (env.backend (s.calls + j))) →
    resolves2xx (env.backend (s.calls + k)) →
    (setAttempts env fuel i s).1 = .ok () ∧
    (setAttempts env fuel i s).2.1.calls = s.calls + k + 1 := by
  intro k
  induction k with
  | zero =>
    intro fuel i s hk _ hres
    obtain ⟨n, rfl⟩ : ∃ n, fuel = n + 1 := ⟨fuel - 1, by omega⟩
    rw [Nat.add_zero] at hres
    rcases hrd : retryDelay env s i with ⟨s₁, tr₁⟩
    have hc : s₁.calls = s.calls := by
      have h := retryDelay_calls env s i
      rw [hrd] at h
      exact h
    cases hb : env.backend s.calls with
    | transportErr =>
      rw [hb] at hres
      exact absurd hres (by simp [resolves2xx])
    | resp st body re =>
      rw [hb] at hres
      obtain ⟨hre, h2xx⟩ := hres
      subst hre
      simp only [setAttempts, hrd, doCall, hc, hb, Bool.false_eq_true, if_false, if_pos h2xx]
      exact ⟨trivial, trivial⟩
  | succ m ih =>
    intro fuel i s hk hr hres
    obtain ⟨n, rfl⟩ : ∃ n, fuel = n + 1 := ⟨fuel - 1, by omega⟩
    have h0 := hr 0 (Nat.succ_pos m)
    rw [Nat.add_zero] at h0
    rcases hrd : retryDelay env s i with ⟨s₁, tr₁⟩
    have hc : s₁.calls = s.calls := by
      have h := retryDelay_calls env s i
      rw [hrd] at h
      exact h
    cases hb : env.backend s.calls with
    | transportErr =>
      rw [hb] at h0
      exact absurd h0 (by simp [retryableSet])
    | resp st body re =>
      rw [hb] at h0
      obtain ⟨hre, h2xx, h45⟩ := h0
      subst hre
      rcases hrec : setAttempts env n (i + 1) ⟨s₁.reads, s.calls + 1⟩ with ⟨r, s₃, tr₃⟩
      have IH := ih n (i + 1) ⟨s₁.reads, s.calls + 1⟩ (by omega)
        (by
          intro j hj
          have heq : (⟨s₁.reads, s.calls + 1⟩ : St).calls + j = s.calls + (j + 1) := by
            simp only []
            omega
          rw [heq]
          exact hr (j + 1) (Nat.succ_lt_succ hj))
        (by
          have heq : (⟨s₁.reads, s.calls + 1⟩ : St).calls + m = s.calls + (m + 1) := by
            simp only []
            omega
          rw [heq]
          exact hres)
      rw [hrec] at IH
      simp only [setAttempts, hrd, doCall, hc, hb, Bool.false_eq_true, if_false,
        if_neg h2xx, if_neg h45, hrec]
      exact ⟨IH.1, by
        have := IH.2
        simp only [] at this
        omega⟩

theorem setAttempts_terminal (env : Env) (fuel i : Nat) (s : St) (st : Nat) (body : Bytes)
    (hfuel : 0 < fuel) (hb : env.backend s.calls = .resp st body false)
    (h2xx : ¬(200 ≤ st ∧ st < 300)) (h45 : st = 400 ∨ st = 500) :
    (setAttempts env fuel i s).1 = .error .internal ∧
    (setAttempts env fuel i s).2.1.calls = s.calls + 1 := by
  obtain ⟨n, rfl⟩ : ∃ n, fuel = n + 1 := ⟨fuel - 1, by omega⟩
  rcases hrd : retryDelay env s i with ⟨s₁, tr₁⟩
  have hc : s₁.calls = s.calls := by
    have h := retryDelay_calls env s i
    rw [hrd] at h
    exact h
  simp only [setAttempts, hrd, doCall, hc, hb, Bool.false_eq_true, if_false,
    if_neg h2xx, if_pos h45]
  exact ⟨trivial, trivial⟩

end httph

namespace httph

theorem deleteAttempts_allRetryable (env : Env) :
    ∀ (fuel i : Nat) (s : St),
    (∀ j, j < fuel → retryableDelete (env.backend (s.calls + j))) →
    (deleteAttempts env fuel i s).1 = .error .internal ∧
    (deleteAttempts env fuel i s).2.1.calls = s.calls + fuel := by
  intro fuel
  induction fuel with
  | zero =>
    intro i s _
    exact ⟨rfl, rfl⟩
  | succ n ih =>
    intro i s hr
    have h0 := hr 0 (Nat.succ_pos n)
    rw [Nat.add_zero] at h0
    rcases hrd : retryDelay env s i with ⟨s₁, tr₁⟩
    have hc : s₁.calls = s.calls := by
      have h := retryDelay_calls env s i
      rw [hrd] at h
      exact h
    cases hb : env.backend s.calls with
    | transportErr =>
      rw [hb] at h0
      exact absurd h0 (by simp [retryableDelete])
    | resp st body re =>
      rw [hb] at h0
      obtain ⟨hre, h2xx, h5⟩ := h0
      subst hre
      rcases hrec : deleteAttempts env n (i + 1) ⟨s₁.reads, s.calls + 1⟩ with ⟨r, s₃, tr₃⟩
      have IH := ih (i + 1) ⟨s₁.reads, s.calls + 1⟩ (by
        intro j hj
        have heq : (⟨s₁.reads, s.calls + 1⟩ : St).calls + j = s.calls + (j + 1) := by
          simp only []
          omega
        rw [heq]
        exact hr (j + 1) (Nat.succ_lt_succ hj))
      rw [hrec] at IH
      simp only [deleteAttempts, hrd, doCall, hc, hb, Bool.false_eq_true, if_false,
        if_neg h2xx, if_neg h5, hrec]
      exact ⟨IH.1, by
        have := IH.2
        simp only [] at this
        omega⟩

theorem deleteAttempts_resolve (env : Env) :
    ∀ (k fuel i : Nat) (s : St), k < fuel →
    (∀ j, j < k → retryableDelete (env.backend (s.calls + j))) →
    resolves2xx (env.backend (s.calls + k)) →
    (deleteAttempts env fuel i s).1 = .ok () ∧
    (deleteAttempts env fuel i s).2.1.calls = s.calls + k + 1 := by
  intro k
  induction k with
  | zero =>
    intro fuel i s hk _ hres
    obtain ⟨n, rfl⟩ : ∃ n, fuel = n + 1 := ⟨fuel - 1, by omega⟩
    rw [Nat.add_zero] at hres
    rcases hrd : retryDelay env s i with ⟨s₁, tr₁⟩
    have hc : s₁.calls = s.calls := by
      have h := retryDelay_calls env s i
      rw [hrd] at h
      exact h
    cases hb : env.backend s.calls with
    | transportErr =>
      rw [hb] at hres
      exact absurd hres (by simp [resolves2xx])
    | resp st body re =>
      rw [hb] at hres
      obtain ⟨hre, h2xx⟩ := hres
      subst hre
      simp only [deleteAttempts, hrd, doCall, hc, hb, Bool.false_eq_true, if_false, if_pos h2xx]
      exact ⟨trivial, trivial⟩
  | succ m ih =>
    intro fuel i s hk hr hres
    obtain ⟨n, rfl⟩ : ∃ n, fuel = n + 1 := ⟨fuel - 1, by omega⟩
    have h0 := hr 0 (Nat.succ_pos m)
    rw [Nat.add_zero] at h0
    rcases hrd : retryDelay env s i with ⟨s₁, tr₁⟩
    have hc : s₁.calls = s.calls := by
      have h := retryDelay_calls env s i
      rw [hrd] at h
      exact h
    cases hb : env.backend s.calls with
    | transportErr =>
      rw [hb] at h0
      exact absurd h0 (by simp [retryableDelete])
    | resp st body re =>
      rw [hb] at h0
      obtain ⟨hre, h2xx, h5⟩ := h0
      subst hre
      rcases hrec : deleteAttempts env n (i + 1) ⟨s₁.reads, s.calls + 1⟩ with ⟨r, s₃, tr₃⟩
      have IH := ih n (i + 1) ⟨s₁.reads, s.calls + 1⟩ (by omega)
        (by
          intro j hj
          have heq : (⟨s₁.reads, s.calls + 1⟩ : St).calls + j = s.calls + (j + 1) := by
            simp only []
            omega
          rw [heq]
          exact hr (j + 1) (Nat.succ_lt_succ hj))
        (by
          have heq : (⟨s₁.reads, s.calls + 1⟩ : St).calls + m = s.calls + (m + 1) := by
            simp only []
            omega
          rw [heq]
          exact hres)
      rw [hrec] at IH
      simp only [deleteAttempts, hrd, doCall, hc, hb, Bool.false_eq_true, if_false,
        if_neg h2xx, if_neg h5, hrec]
      exact ⟨IH.1, by
        have := IH.2
        simp only [] at this
        omega⟩

theorem deleteAttempts_terminal (env : Env) (fuel i : Nat) (s : St) (body : Bytes)
    (hfuel : 0 < fuel) (hb : env.backend s.calls = .resp 500 body false) :
    (deleteAttempts env fuel i s).1 = .error .internal ∧
    (deleteAttempts env fuel i s).2.1.calls = s.calls + 1 := by
  obtain ⟨n, rfl⟩ : ∃ n, fuel = n + 1 := ⟨fuel - 1, by omega⟩
  rcases hrd : retryDelay env s i with ⟨s₁, tr₁⟩
  have hc : s₁.calls = s.calls := by
    have h := retryDelay_calls env s i
    rw [hrd] at h
    exact h
  simp only [deleteAttempts, hrd, doCall, hc, hb, Bool.false_eq_true, if_false,
    if_neg (by decide : ¬(200 ≤ 500 ∧ 500 < 300)), if_true]
  exact ⟨trivial, trivial⟩

theorem Set_eq (env : Env) :
    Set env =
      ((setAttempts env (env.store 0 NumTriesConfigName DefaultNumTries).toNat 0 ⟨1, 0⟩).1,
        (setAttempts env (env.store 0 NumTriesConfigName DefaultNumTries).toNat 0 ⟨1, 0⟩).2.1,
        .confRead NumTriesConfigName (env.store 0 NumTriesConfigName DefaultNumTries) ::
          (setAttempts env (env.store 0 NumTriesConfigName DefaultNumTries).toNat 0 ⟨1, 0⟩).2.2) := rfl

theorem Delete_eq (env : Env) :
    Delete env =
      ((deleteAttempts env (env.store 0 NumTriesConfigName DefaultNumTries).toNat 0 ⟨1, 0⟩).1,
        (deleteAttempts env (env.store 0 NumTriesConfigName DefaultNumTries).toNat 0 ⟨1, 0⟩).2.1,
        .confRead NumTriesConfigName (env.store 0 NumTriesConfigName DefaultNumTries) ::
          (deleteAttempts env (env.store 0 NumTriesConfigName DefaultNumTries).toNat 0 ⟨1, 0⟩).2.2) := rfl

end httph

namespace httph

theorem getD_of_get? {α : Type} (l : List α) (n : Nat) (q d : α) (h : l.get? n = some q) :
    l.getD n d = q := by
  rw [List.getD_eq_getElem?_getD, ← List.get?_eq_getElem?, h]
  rfl

theorem get?_of_lt {α : Type} (l : List α) (n : Nat) (h : n < l.length) :
    ∃ q, l.get? n = some q :=
  ⟨l.get ⟨n, h⟩, List.get?_eq_get h⟩

theorem getAttempts_allRetryable (env : Env) (cmd : GetRequest) (idx : Nat) (key : Bytes) :
    ∀ (fuel i : Nat) (s : St),
    (∀ j, j < fuel → retryableGet (env.backend (s.calls + j))) →
    (getAttempts env cmd idx key fuel i s).1 = .halt .internal ∧
    (getAttempts env cmd idx key fuel i s).2.1.calls = s.calls + fuel := by
  intro fuel
  induction fuel with
  | zero =>
    intro i s _
    exact ⟨rfl, rfl⟩
  | succ n ih =>
    intro i s hr
    have h0 := hr 0 (Nat.succ_pos n)
    rw [Nat.add_zero] at h0
    rcases hrd : retryDelay env s i with ⟨s₁, tr₁⟩
    have hc : s₁.calls = s.calls := by
      have h := retryDelay_calls env s i
      rw [hrd] at h
      exact h
    cases hb : env.backend s.calls with
    | transportErr =>
      rw [hb] at h0
      exact absurd h0 (by simp [retryableGet])
    | resp st body re =>
      rw [hb] at h0
      obtain ⟨h200, h404, h500⟩ := h0
      rcases hrec : getAttempts env cmd idx key n (i + 1) ⟨s₁.reads, s.calls + 1⟩ with ⟨r, s₃, tr₃⟩
      have IH := ih (i + 1) ⟨s₁.reads, s.calls + 1⟩ (by
        intro j hj
        have heq : (⟨s₁.reads, s.calls + 1⟩ : St).calls + j = s.calls + (j + 1) := by
          simp only []
          omega
        rw [heq]
        exact hr (j + 1) (Nat.succ_lt_succ hj))
      rw [hrec] at IH
      simp only [getAttempts, hrd, doCall, hc, hb, if_neg h200, if_neg h404, if_neg h500, hrec]
      exact ⟨IH.1, by
        have := IH.2
        simp only [] at this
        omega⟩

theorem getAttempts_resolve (env : Env) (cmd : GetRequest) (idx : Nat) (key : Bytes)
    (q : Bool) (o : Nat) (hq : cmd.quiet.get? idx = some q)
    (ho : cmd.opaques.get? idx = some o) :
    ∀ (k fuel i : Nat) (s : St), k < fuel →
    (∀ j, j < k → retryableGet (env.backend (s.calls + j))) →
    getResolves (env.backend (s.calls + k)) →
    (getAttempts env cmd idx key fuel i s).1 =
      .hit (keyHit key q o (env.backend (s.calls + k))) ∧
    (getAttempts env cmd idx key fuel i s).2.1.calls = s.calls + k + 1 := by
  intro k
  induction k with
  | zero =>
    intro fuel i s hk _ hres
    obtain ⟨n, rfl⟩ : ∃ n, fuel = n + 1 := ⟨fuel - 1, by omega⟩
    rw [Nat.add_zero] at hres ⊢
    rcases hrd : retryDelay env s i with ⟨s₁, tr₁⟩
    have hc : s₁.calls = s.calls := by
      have h := retryDelay_calls env s i
      rw [hrd] at h
      exact h
    cases hb : env.backend s.calls with
    | transportErr =>
      rw [hb] at hres
      exact absurd hres (by simp [getResolves])
    | resp st body re =>
      rw [hb] at hres
      rcases hres with h200 | h404
      · subst h200
        have hb0 : env.backend (s.calls + 0) = CallResult.resp 200 body re := hb
        simp only [getAttempts, hrd, doCall, hc, hb, hb0, if_true, if_false, hq, ho, keyHit]
        exact ⟨trivial, trivial⟩
      · subst h404
        have hb0 : env.backend (s.calls + 0) = CallResult.resp 404 body re := hb
        simp only [getAttempts, hrd, doCall, hc, hb, hb0,
          if_neg (by decide : ¬((404 : Nat) = 200)), if_true, if_false, hq, ho, keyHit]
        exact ⟨trivial, trivial⟩
  | succ m ih =>
    intro fuel i s hk hr hres
    obtain ⟨n, rfl⟩ : ∃ n, fuel = n + 1 := ⟨fuel - 1, by omega⟩
    have h0 := hr 0 (Nat.succ_pos m)
    rw [Nat.add_zero] at h0
    rcases hrd : retryDelay env s i with ⟨s₁, tr₁⟩
    have hc : s₁.calls = s.calls := by
      have h := retryDelay_calls env s i
      rw [hrd] at h
      exact h
    cases hb : env.backend s.calls with
    | transportErr =>
      rw [hb] at h0
      exact absurd h0 (by simp [retryableGet])
    | resp st body re =>
      rw [hb] at h0
      obtain ⟨h200, h404, h500⟩ := h0
      rcases hrec : getAttempts env cmd idx key n (i + 1) ⟨s₁.reads, s.calls + 1⟩ with ⟨r, s₃, tr₃⟩
      have hshift : ∀ j, (⟨s₁.reads, s.calls + 1⟩ : St).calls + j = s.calls + (j + 1) := by
        intro j
        simp only []
        omega
      have IH := ih n (i + 1) ⟨s₁.reads, s.calls + 1⟩ (by omega)
        (by
          intro j hj
          rw [hshift j]
          exact hr (j + 1) (Nat.succ_lt_succ hj))
        (by
          rw [hshift m]
          exact hres)
      rw [hrec, hshift m] at IH
      simp only [getAttempts, hrd, doCall, hc, hb, if_neg h200, if_neg h404, if_neg h500, hrec]
      refine ⟨IH.1, ?_⟩
      have := IH.2
      simp only [] at this ⊢
      omega

theorem getAttempts_terminal500 (env : Env) (cmd : GetRequest) (idx : Nat) (key : Bytes)
    (fuel i : Nat) (s : St) (body : Bytes) (re : Bool)
    (hfuel : 0 < fuel) (hb : env.backend s.calls = .resp 500 body re) :
    (getAttempts env cmd idx key fuel i s).1 = .halt .internal ∧
    (getAttempts env cmd idx key fuel i s).2.1.calls = s.calls + 1 := by
  obtain ⟨n, rfl⟩ : ∃ n, fuel = n + 1 := ⟨fuel - 1, by omega⟩
  rcases hrd : retryDelay env s i with ⟨s₁, tr₁⟩
  have hc : s₁.calls = s.calls := by
    have h := retryDelay_calls env s i
    rw [hrd] at h
    exact h
  simp only [getAttempts, hrd, doCall, hc, hb,
    if_neg (by decide : ¬((500 : Nat) = 200)), if_neg (by decide : ¬((500 : Nat) = 404)), if_true]
  exact ⟨trivial, trivial⟩

end httph

namespace httph

theorem realHandleGet_resolving (env : Env) (cmd : GetRequest)
    (hres : ∀ n, getResolves (env.backend n))
    (htries : ∀ r, 1 ≤ env.store r NumTriesConfigName DefaultNumTries) :
    ∀ (keys : List Bytes) (idx : Nat) (s : St),
    idx + keys.length ≤ cmd.opaques.length →
    idx + keys.length ≤ cmd.quiet.length →
    (realHandleGet env cmd idx keys s).1 = .out (expectedHits env cmd idx s.calls keys) none ∧
    (realHandleGet env cmd idx keys s).2.1.calls = s.calls + keys.length := by
  intro keys
  induction keys with
  | nil =>
    intro idx s _ _
    exact ⟨rfl, rfl⟩
  | cons key rest ih =>
    intro idx s ho hq
    obtain ⟨m, hm⟩ : ∃ m, (env.store s.reads NumTriesConfigName DefaultNumTries).toNat = m + 1 := by
      have := htries s.reads
      have h1 : 1 ≤ (env.store s.reads NumTriesConfigName DefaultNumTries).toNat := by omega
      exact ⟨(env.store s.reads NumTriesConfigName DefaultNumTries).toNat - 1, by omega⟩
    have hidxo : idx < cmd.opaques.length := by
      simp only [List.length_cons] at ho
      omega
    have hidxq : idx < cmd.quiet.length := by
      simp only [List.length_cons] at hq
      omega
    obtain ⟨o, hoi⟩ := get?_of_lt cmd.opaques idx hidxo
    obtain ⟨q, hqi⟩ := get?_of_lt cmd.quiet idx hidxq
    have hga := getAttempts_resolve env cmd idx key q o hqi hoi 0
      (m + 1) 0 ⟨s.reads + 1, s.calls⟩ (Nat.succ_pos m)
      (fun j hj => absurd hj (Nat.not_lt_zero j))
      (by
        have : (⟨s.reads + 1, s.calls⟩ : St).calls + 0 = s.calls := rfl
        rw [this]
        exact hres s.calls)
    rcases hg : getAttempts env cmd idx key (m + 1) 0 ⟨s.reads + 1, s.calls⟩ with ⟨step, s₂, tr₂⟩
    rw [hg] at hga
    simp only [] at hga
    have hstep : step = .hit (keyHit key q o (env.backend (s.calls + 0))) := hga.1
    have hs₂ : s₂.calls = s.calls + 0 + 1 := hga.2
    have hcall0 : s.calls + 0 = s.calls := rfl
    rw [hcall0] at hstep
    have hs₂' : s₂.calls = s.calls + 1 := by omega
    rcases hrest : realHandleGet env cmd (idx + 1) rest s₂ with ⟨rest', s₃, tr₃⟩
    have IH := ih (idx + 1) s₂
      (by simp only [List.length_cons] at ho; omega)
      (by simp only [List.length_cons] at hq; omega)
    rw [hrest] at IH
    simp only [] at IH
    rw [hs₂'] at IH
    have hrest' : rest' = .out (expectedHits env cmd (idx + 1) (s.calls + 1) rest) none := IH.1
    subst hrest'
    simp only [realHandleGet, configGetAt, hm, hg, hstep, hrest, expectedHits,
      getD_of_get? cmd.quiet idx q false hqi, getD_of_get? cmd.opaques idx o 0 hoi,
      List.length_cons]
    refine ⟨trivial, ?_⟩
    have := IH.2
    omega

theorem getAttempts_not_panic (env : Env) (cmd : GetRequest) (idx : Nat) (key : Bytes)
    (hq : idx < cmd.quiet.length) (ho : idx < cmd.opaques.length) :
    ∀ (fuel i : Nat) (s : St),
    (getAttempts env cmd idx key fuel i s).1 ≠ .panicOut := by
  intro fuel
  induction fuel with
  | zero =>
    intro i s h
    cases h
  | succ n ih =>
    intro i s
    obtain ⟨o, hoi⟩ := get?_of_lt cmd.opaques idx ho
    obtain ⟨q, hqi⟩ := get?_of_lt cmd.quiet idx hq
    rcases hrd : retryDelay env s i with ⟨s₁, tr₁⟩
    cases hb : env.backend s₁.calls with
    | transportErr =>
      simp only [getAttempts, hrd, doCall, hb]
      intro h
      cases h
    | resp st body re =>
      simp only [getAttempts, hrd, doCall, hb, hqi, hoi]
      by_cases h200 : st = 200
      · simp only [h200, if_true]
        intro h
        cases h
      · rw [if_neg h200]
        by_cases h404 : st = 404
        · simp only [h404, if_true]
          intro h
          cases h
        · rw [if_neg h404]
          by_cases h500 : st = 500
          · simp only [h500, if_true]
            intro h
            cases h
          · rw [if_neg h500]
            rcases hrec : getAttempts env cmd idx key n (i + 1) ⟨s₁.reads, s₁.calls + 1⟩
              with ⟨r, s₃, tr₃⟩
            have := ih (i + 1) ⟨s₁.reads, s₁.calls + 1⟩
            rw [hrec] at this
            simpa using this

theorem realHandleGet_not_panicked (env : Env) (cmd : GetRequest) :
    ∀ (keys : List Bytes) (idx : Nat) (s : St),
    idx + keys.length ≤ cmd.opaques.length →
    idx + keys.length ≤ cmd.quiet.length →
    isPanicked (realHandleGet env cmd idx keys s).1 = false := by
  intro keys
  induction keys with
  | nil =>
    intro idx s _ _
    rfl
  | cons key rest ih =>
    intro idx s ho hq
    have hidxo : idx < cmd.opaques.length := by
      simp only [List.length_cons] at ho
      omega
    have hidxq : idx < cmd.quiet.length := by
      simp only [List.length_cons] at hq
      omega
    rcases hg : getAttempts env cmd idx key
        (env.store s.reads NumTriesConfigName DefaultNumTries).toNat 0 ⟨s.reads + 1, s.calls⟩
      with ⟨step, s₂, tr₂⟩
    cases step with
    | panicOut =>
      have := getAttempts_not_panic env cmd idx key hidxq hidxo
        (env.store s.reads NumTriesConfigName DefaultNumTries).toNat 0 ⟨s.reads + 1, s.calls⟩
      rw [hg] at this
      exact absurd rfl this
    | halt e =>
      simp only [realHandleGet, configGetAt, hg, isPanicked]
    | hit r =>
      have IH := ih (idx + 1) s₂
        (by simp only [List.length_cons] at ho; omega)
        (by simp only [List.length_cons] at hq; omega)
      rcases hrest : realHandleGet env cmd (idx + 1) rest s₂ with ⟨rest', s₃, tr₃⟩
      rw [hrest] at IH
      simp only [] at IH
      cases rest' with
      | out rs e =>
        simp only [realHandleGet, configGetAt, hg, hrest, isPanicked]
      | panicked rs =>
        simp only [isPanicked] at IH
        cases IH

end httph

namespace httph

theorem Get_first500 (env : Env) (cmd : GetRequest) (key : Bytes) (rest : List Bytes)
    (hkeys : cmd.keys = key :: rest) (body : Bytes) (re : Bool)
    (hb : env.backend 0 = .resp 500 body re)
    (ht : 1 ≤ env.store 0 NumTriesConfigName DefaultNumTries) :
    (Get env cmd).1 = .out [] (some .internal) ∧ (Get env cmd).2.1.calls = 1 := by
  unfold Get
  rw [hkeys]
  obtain ⟨m, hm⟩ : ∃ m, (env.store 0 NumTriesConfigName DefaultNumTries).toNat = m + 1 :=
    ⟨(env.store 0 NumTriesConfigName DefaultNumTries).toNat - 1, by omega⟩
  have hga := getAttempts_terminal500 env cmd 0 key (m + 1) 0 ⟨1, 0⟩ body re
    (Nat.succ_pos m) hb
  rcases hg : getAttempts env cmd 0 key (m + 1) 0 ⟨1, 0⟩ with ⟨step, s₂, tr₂⟩
  rw [hg] at hga
  simp only [] at hga
  obtain ⟨hstep, hs2⟩ := hga
  subst hstep
  simp only [realHandleGet, configGetAt, hm, hg]
  exact ⟨trivial, by omega⟩

theorem Get_resolveAfterK (env : Env) (cmd : GetRequest) (key : Bytes) (k : Nat)
    (hkeys : cmd.keys = [key]) (q : Bool) (o : Nat)
    (hq : cmd.quiet.get? 0 = some q) (ho : cmd.opaques.get? 0 = some o)
    (hk : k < (env.store 0 NumTriesConfigName DefaultNumTries).toNat)
    (hr : ∀ j, j < k → retryableGet (env.backend j))
    (hres : getResolves (env.backend k)) :
    (Get env cmd).1 = .out [keyHit key q o (env.backend k)] none ∧
    (Get env cmd).2.1.calls = k + 1 := by
  unfold Get
  rw [hkeys]
  have hga := getAttempts_resolve env cmd 0 key q o hq ho k
    (env.store 0 NumTriesConfigName DefaultNumTries).toNat 0 ⟨1, 0⟩ hk
    (by
      intro j hj
      have heq : (⟨1, 0⟩ : St).calls + j = j := by
        simp only []
        omega
      rw [heq]
      exact hr j hj)
    (by
      have heq : (⟨1, 0⟩ : St).calls + k = k := by
        simp only []
        omega
      rw [heq]
      exact hres)
  have heqk : (⟨1, 0⟩ : St).calls + k = k := by
    simp only []
    omega
  rw [heqk] at hga
  rcases hg : getAttempts env cmd 0 key
      (env.store 0 NumTriesConfigName DefaultNumTries).toNat 0 ⟨1, 0⟩ with ⟨step, s₂, tr₂⟩
  rw [hg] at hga
  simp only [] at hga
  simp only [realHandleGet, configGetAt, hg, hga.1]
  exact ⟨trivial, by
    have := hga.2
    omega⟩

theorem Get_exhausted (env : Env) (cmd : GetRequest) (key : Bytes) (rest : List Bytes)
    (hkeys : cmd.keys = key :: rest)
    (hr : ∀ j, j < (env.store 0 NumTriesConfigName DefaultNumTries).toNat →
      retryableGet (env.backend j)) :
    (Get env cmd).1 = .out [] (some .internal) ∧
    (Get env cmd).2.1.calls = (env.store 0 NumTriesConfigName DefaultNumTries).toNat := by
  unfold Get
  rw [hkeys]
  have hga := getAttempts_allRetryable env cmd 0 key
    (env.store 0 NumTriesConfigName DefaultNumTries).toNat 0 ⟨1, 0⟩
    (by
      intro j hj
      have heq : (⟨1, 0⟩ : St).calls + j = j := by
        simp only []
        omega
      rw [heq]
      exact hr j hj)
  rcases hg : getAttempts env cmd 0 key
      (env.store 0 NumTriesConfigName DefaultNumTries).toNat 0 ⟨1, 0⟩ with ⟨step, s₂, tr₂⟩
  rw [hg] at hga
  simp only [] at hga
  simp only [realHandleGet, configGetAt, hg, hga.1]
  exact ⟨trivial, by
    have := hga.2
    omega⟩

end httph

/-! ### Claims about the adapter -/

/-- C1: for every Get call, keys are resolved strictly in input order; a
200 response yields a hit entry whose payload equals the response body and
whose opaque and quiet fields equal the caller-supplied values at that
key's index, and a 404 response yields a miss entry with matching
opaque/quiet and no payload.  (Stated for runs in which every backend call
resolves as 200 or 404, so that the n-th call answers the n-th key; the
retry interaction is claim C3's subject.) -/
theorem claim_C1_get_order_and_echo (env : httph.Env) (cmd : httph.GetRequest)
    (hlo : cmd.keys.length ≤ cmd.opaques.length)
    (hlq : cmd.keys.length ≤ cmd.quiet.length)
    (hres : ∀ n, httph.getResolves (env.backend n))
    (htries : ∀ r, 1 ≤ env.store r httph.NumTriesConfigName httph.DefaultNumTries) :
    (httph.Get env cmd).1 = .out (httph.expectedHits env cmd 0 0 cmd.keys) none ∧
    (httph.Get env cmd).2.1.calls = cmd.keys.length := by
  have h := httph.realHandleGet_resolving env cmd hres htries cmd.keys 0 ⟨0, 0⟩
    (by omega) (by omega)
  unfold httph.Get
  refine ⟨h.1, ?_⟩
  have h2 := h.2
  simp only [] at h2 ⊢
  omega

/-- Witness for C1: two keys, the first hits with body `[97]`, the second
misses; the stream has the hit then the miss, echoing opaques 10, 20 and
quiet flags false, true. -/
theorem claim_C1_witness :
    (httph.Get
        ⟨fun _ _ d => d,
          fun n => if n = 0 then .resp 200 [97] false else .resp 404 [] false⟩
        ⟨[[107], [108]], [10, 20], [false, true]⟩).1 =
      .out [⟨false, false, 10, 0, [107], [97]⟩, ⟨true, true, 20, 0, [108], []⟩] none := by
  have h := claim_C1_get_order_and_echo
    ⟨fun _ _ d => d, fun n => if n = 0 then .resp 200 [97] false else .resp 404 [] false⟩
    ⟨[[107], [108]], [10, 20], [false, true]⟩
    (by decide) (by decide)
    (fun n => by
      by_cases h : n = 0 <;> simp [httph.getResolves, h])
    (fun r => by
      show (1 : Int) ≤ httph.DefaultNumTries
      decide)
  rw [h.1]
  rfl

/-- C2: when the backend answers HTTP 500 on the first attempt — and for
Set, also HTTP 400 — exactly one HTTP call is made, no retry occurs, and
the generic internal error (`common.ErrInternal`) is returned; for Get it
is emitted once on the error stream and no further keys are processed. -/
theorem claim_C2_terminal_no_retry :
    (∀ (env : httph.Env) (body : httph.Bytes),
      env.backend 0 = .resp 500 body false →
      1 ≤ env.store 0 httph.NumTriesConfigName httph.DefaultNumTries →
      (httph.Set env).1 = .error .internal ∧ (httph.Set env).2.1.calls = 1) ∧
    (∀ (env : httph.Env) (body : httph.Bytes),
      env.backend 0 = .resp 400 body false →
      1 ≤ env.store 0 httph.NumTriesConfigName httph.DefaultNumTries →
      (httph.Set env).1 = .error .internal ∧ (httph.Set env).2.1.calls = 1) ∧
    (∀ (env : httph.Env) (body : httph.Bytes),
      env.backend 0 = .resp 500 body false →
      1 ≤ env.store 0 httph.NumTriesConfigName httph.DefaultNumTries →
      (httph.Delete env).1 = .error .internal ∧ (httph.Delete env).2.1.calls = 1) ∧
    (∀ (env : httph.Env) (cmd : httph.GetRequest) (key : httph.Bytes)
        (rest : List httph.Bytes) (body : httph.Bytes) (re : Bool),
      cmd.keys = key :: rest →
      env.backend 0 = .resp 500 body re →
      1 ≤ env.store 0 httph.NumTriesConfigName httph.DefaultNumTries →
      (httph.Get env cmd).1 = .out [] (some .internal) ∧
      (httph.Get env cmd).2.1.calls = 1) := by
  refine ⟨?_, ?_, ?_, ?_⟩
  · intro env body hb ht
    have h := httph.setAttempts_terminal env
      (env.store 0 httph.NumTriesConfigName httph.DefaultNumTries).toNat 0 ⟨1, 0⟩ 500 body
      (by omega) hb (by decide) (Or.inr rfl)
    rw [httph.Set_eq env]
    refine ⟨h.1, ?_⟩
    have h2 := h.2
    simp only [] at h2 ⊢
    omega
  · intro env body hb ht
    have h := httph.setAttempts_terminal env
      (env.store 0 httph.NumTriesConfigName httph.DefaultNumTries).toNat 0 ⟨1, 0⟩ 400 body
      (by omega) hb (by decide) (Or.inl rfl)
    rw [httph.Set_eq env]
    refine ⟨h.1, ?_⟩
    have h2 := h.2
    simp only [] at h2 ⊢
    omega
  · intro env body hb ht
    have h := httph.deleteAttempts_terminal env
      (env.store 0 httph.NumTriesConfigName httph.DefaultNumTries).toNat 0 ⟨1, 0⟩ body
      (by omega) hb
    rw [httph.Delete_eq env]
    refine ⟨h.1, ?_⟩
    have h2 := h.2
    simp only [] at h2 ⊢
    omega
  · intro env cmd key rest body re hkeys hb ht
    exact httph.Get_first500 env cmd key rest hkeys body re hb ht

/-- Witness for C2: a backend that always answers 500 (and for the second
Set conjunct 400) with the default store; each operation makes exactly one
call and returns the internal error. -/
theorem claim_C2_witness :
    (httph.Set ⟨fun _ _ d => d, fun _ => .resp 500 [] false⟩).1 = .error .internal ∧
    (httph.Set ⟨fun _ _ d => d, fun _ => .resp 500 [] false⟩).2.1.calls = 1 ∧
    (httph.Set ⟨fun _ _ d => d, fun _ => .resp 400 [] false⟩).2.1.calls = 1 ∧
    (httph.Delete ⟨fun _ _ d => d, fun _ => .resp 500 [] false⟩).2.1.calls = 1 ∧
    (httph.Get ⟨fun _ _ d => d, fun _ => .resp 500 [] false⟩
        ⟨[[107]], [10], [false]⟩).1 = .out [] (some .internal) := by
  have h1 := claim_C2_terminal_no_retry.1 ⟨fun _ _ d => d, fun _ => .resp 500 [] false⟩ []
    rfl (by decide)
  have h2 := claim_C2_terminal_no_retry.2.1 ⟨fun _ _ d => d, fun _ => .resp 400 [] false⟩ []
    rfl (by decide)
  have h3 := claim_C2_terminal_no_retry.2.2.1 ⟨fun _ _ d => d, fun _ => .resp 500 [] false⟩ []
    rfl (by decide)
  have h4 := claim_C2_terminal_no_retry.2.2.2 ⟨fun _ _ d => d, fun _ => .resp 500 [] false⟩
    ⟨[[107]], [10], [false]⟩ [107] [] [] false rfl rfl (by decide)
  exact ⟨h1.1, h1.2, h2.2, h3.2, h4.1⟩

/-- C3: if the backend returns a retryable status on the first `k` attempts
with `k` below the try budget read from the config store (key `numTries`,
default 4, counting the first attempt) and then a resolving status, the
adapter makes exactly `k+1` HTTP calls and returns success (for Get, the
hit/miss result); if no resolving status occurs within the budget, it makes
exactly `numTries` calls and returns the terminal internal error. -/
theorem claim_C3_retry_budget :
    (∀ (env : httph.Env) (k : Nat),
      k < (env.store 0 httph.NumTriesConfigName httph.DefaultNumTries).toNat →
      (∀ j, j < k → httph.retryableSet (env.backend j)) →
      httph.resolves2xx (env.backend k) →
      (httph.Set env).1 = .ok () ∧ (httph.Set env).2.1.calls = k + 1) ∧
    (∀ (env : httph.Env),
      (∀ j, j < (env.store 0 httph.NumTriesConfigName httph.DefaultNumTries).toNat →
        httph.retryableSet (env.backend j)) →
      (httph.Set env).1 = .error .internal ∧
      (httph.Set env).2.1.calls =
        (env.store 0 httph.NumTriesConfigName httph.DefaultNumTries).toNat) ∧
    (∀ (env : httph.Env) (k : Nat),
      k < (env.store 0 httph.NumTriesConfigName httph.DefaultNumTries).toNat →
      (∀ j, j < k → httph.retryableDelete (env.backend j)) →
      httph.resolves2xx (env.backend k) →
      (httph.Delete env).1 = .ok () ∧ (httph.Delete env).2.1.calls = k + 1) ∧
    (∀ (env : httph.Env),
      (∀ j, j < (env.store 0 httph.NumTriesConfigName httph.DefaultNumTries).toNat →
        httph.retryableDelete (env.backend j)) →
      (httph.Delete env).1 = .error .internal ∧
      (httph.Delete env).2.1.calls =
        (env.store 0 httph.NumTriesConfigName httph.DefaultNumTries).toNat) ∧
    (∀ (env : httph.Env) (cmd : httph.GetRequest) (key : httph.Bytes) (k : Nat)
        (q : Bool) (o : Nat),
      cmd.keys = [key] → cmd.quiet.get? 0 = some q → cmd.opaques.get? 0 = some o →
      k < (env.store 0 httph.NumTriesConfigName httph.DefaultNumTries).toNat →
      (∀ j, j < k → httph.retryableGet (env.backend j)) →
      httph.getResolves (env.backend k) →
      (httph.Get env cmd).1 = .out [httph.keyHit key q o (env.backend k)] none ∧
      (httph.Get env cmd).2.1.calls = k + 1) ∧
    (∀ (env : httph.Env) (cmd : httph.GetRequest) (key : httph.Bytes)
        (rest : List httph.Bytes),
      cmd.keys = key :: rest →
      (∀ j, j < (env.store 0 httph.NumTriesConfigName httph.DefaultNumTries).toNat →
        httph.retryableGet (env.backend j)) →
      (httph.Get env cmd).1 = .out [] (some .internal) ∧
      (httph.Get env cmd).2.1.calls =
        (env.store 0 httph.NumTriesConfigName httph.DefaultNumTries).toNat) := by
  refine ⟨?_, ?_, ?_, ?_, ?_, ?_⟩
  · intro env k hk hr hres
    have h := httph.setAttempts_resolve env k
      (env.store 0 httph.NumTriesConfigName httph.DefaultNumTries).toNat 0 ⟨1, 0⟩ hk
      (by
        intro j hj
        have heq : (⟨1, 0⟩ : httph.St).calls + j = j := by
          simp only []
          omega
        rw [heq]
        exact hr j hj)
      (by
        have heq : (⟨1, 0⟩ : httph.St).calls + k = k := by
          simp only []
          omega
        rw [heq]
        exact hres)
    rw [httph.Set_eq env]
    refine ⟨h.1, ?_⟩
    have h2 := h.2
    simp only [] at h2 ⊢
    omega
  · intro env hr
    have h := httph.setAttempts_allRetryable env
      (env.store 0 httph.NumTriesConfigName httph.DefaultNumTries).toNat 0 ⟨1, 0⟩
      (by
        intro j hj
        have heq : (⟨1, 0⟩ : httph.St).calls + j = j := by
          simp only []
          omega
        rw [heq]
        exact hr j hj)
    rw [httph.Set_eq env]
    refine ⟨h.1, ?_⟩
    have h2 := h.2
    simp only [] at h2 ⊢
    omega
  · intro env k hk hr hres
    have h := httph.deleteAttempts_resolve env k
      (env.store 0 httph.NumTriesConfigName httph.DefaultNumTries).toNat 0 ⟨1, 0⟩ hk
      (by
        intro j hj
        have heq : (⟨1, 0⟩ : httph.St).calls + j = j := by
          simp only []
          omega
        rw [heq]
        exact hr j hj)
      (by
        have heq : (⟨1, 0⟩ : httph.St).calls + k = k := by
          simp only []
          omega
        rw [heq]
        exact hres)
    rw [httph.Delete_eq env]
    refine ⟨h.1, ?_⟩
    have h2 := h.2
    simp only [] at h2 ⊢
    omega
  · intro env hr
    have h := httph.deleteAttempts_allRetryable env
      (env.store 0 httph.NumTriesConfigName httph.DefaultNumTries).toNat 0 ⟨1, 0⟩
      (by
        intro j hj
        have heq : (⟨1, 0⟩ : httph.St).calls + j = j := by
          simp only []
          omega
        rw [heq]
        exact hr j hj)
    rw [httph.Delete_eq env]
    refine ⟨h.1, ?_⟩
    have h2 := h.2
    simp only [] at h2 ⊢
    omega
  · intro env cmd key k q o hkeys hq ho hk hr hres
    exact httph.Get_resolveAfterK env cmd key k hkeys q o hq ho hk hr hres
  · intro env cmd key rest hkeys hr
    exact httph.Get_exhausted env cmd key rest hkeys hr

/-- Witness for C3: with the default budget of 4, a backend answering 503
twice and then 2xx/200 makes exactly 3 calls; a backend stuck on 503 makes
exactly 4 calls and fails with the internal error. -/
theorem claim_C3_witness :
    (httph.Set ⟨fun _ _ d => d,
        fun n => if n < 2 then .resp 503 [] false else .resp 204 [] false⟩).1 = .ok () ∧
    (httph.Set ⟨fun _ _ d => d,
        fun n => if n < 2 then .resp 503 [] false else .resp 204 [] false⟩).2.1.calls = 3 ∧
    (httph.Set ⟨fun _ _ d => d, fun _ => .resp 503 [] false⟩).2.1.calls = 4 ∧
    (httph.Delete ⟨fun _ _ d => d, fun _ => .resp 503 [] false⟩).2.1.calls = 4 ∧
    (httph.Get ⟨fun _ _ d => d,
        fun n => if n < 2 then .resp 503 [] false else .resp 200 [98] false⟩
      ⟨[[107]], [10], [false]⟩).1 =
      .out [⟨false, false, 10, 0, [107], [98]⟩] none ∧
    (httph.Get ⟨fun _ _ d => d, fun _ => .resp 503 [] false⟩
      ⟨[[107]], [10], [false]⟩).2.1.calls = 4 := by
  have hA := claim_C3_retry_budget.1 ⟨fun _ _ d => d,
      fun n => if n < 2 then .resp 503 [] false else .resp 204 [] false⟩ 2
    (by decide)
    (fun j hj => by
      interval_cases j <;> simp [httph.retryableSet])
    (by simp [httph.resolves2xx])
  have hB := claim_C3_retry_budget.2.1 ⟨fun _ _ d => d, fun _ => .resp 503 [] false⟩
    (fun j _ => by simp [httph.retryableSet])
  have hC := claim_C3_retry_budget.2.2.2.1 ⟨fun _ _ d => d, fun _ => .resp 503 [] false⟩
    (fun j _ => by simp [httph.retryableDelete])
  have hD := claim_C3_retry_budget.2.2.2.2.1 ⟨fun _ _ d => d,
      fun n => if n < 2 then .resp 503 [] false else .resp 200 [98] false⟩
    ⟨[[107]], [10], [false]⟩ [107] 2 false 10 rfl rfl rfl
    (by decide)
    (fun j hj => by
      interval_cases j <;> simp [httph.retryableGet])
    (by simp [httph.getResolves])
  have hE := claim_C3_retry_budget.2.2.2.2.2 ⟨fun _ _ d => d, fun _ => .resp 503 [] false⟩
    ⟨[[107]], [10], [false]⟩ [107] [] rfl
    (fun j _ => by simp [httph.retryableGet])
  refine ⟨hA.1, hA.2, hB.2, hC.2, ?_, hE.2⟩
  rw [hD.1]
  rfl

/-- C9: Get requires the opaque and quiet sequences to cover the keys:
when both are at least as long as the key list, the background task never
panics; and there is a request with fewer opaques/quiet flags than keys on
which the task does panic with an out-of-range index (here: one key
resolving 200 with empty opaque and quiet lists). -/
theorem claim_C9_index_safety (env : httph.Env) (cmd : httph.GetRequest)
    (ho : cmd.keys.length ≤ cmd.opaques.length)
    (hq : cmd.keys.length ≤ cmd.quiet.length) :
    httph.isPanicked (httph.Get env cmd).1 = false ∧
    httph.isPanicked
      (httph.Get ⟨fun _ _ d => d, fun _ => .resp 200 [] false⟩
        ⟨[[107]], [], []⟩).1 = true := by
  constructor
  · exact httph.realHandleGet_not_panicked env cmd cmd.keys 0 ⟨0, 0⟩ (by omega) (by omega)
  · rfl

/-- Witness for C9 at a concrete well-formed request: one key, matching
opaque and quiet lists, a 404 backend; no panic. -/
theorem claim_C9_witness :
    httph.isPanicked
      (httph.Get ⟨fun _ _ d => d, fun _ => .resp 404 [] false⟩
        ⟨[[107]], [10], [false]⟩).1 = false :=
  (claim_C9_index_safety ⟨fun _ _ d => d, fun _ => .resp 404 [] false⟩
    ⟨[[107]], [10], [false]⟩ (by decide) (by decide)).1

/-- C10: GetE returns a nil result channel paired with a buffered error
channel that already contains the unsupported-operation error
(`common.ErrUnknownCmd`) and has not been closed. -/
theorem claim_C10_getE_unsupported :
    httph.GetE.1 = none ∧
    httph.GetE.2.buffered = [.unknownCmd] ∧
    httph.GetE.2.closed = false :=
  ⟨rfl, rfl, rfl⟩

/-! ### Trace-counting and backoff lemmas -/

namespace httph

theorem countCalls_append (a b : List Ev) :
    countCalls (a ++ b) = countCalls a + countCalls b := by
  induction a with
  | nil => simp [countCalls]
  | cons e tr ih =>
    cases e <;> simp [countCalls, ih] <;> omega

theorem countSleeps_append (a b : List Ev) :
    countSleeps (a ++ b) = countSleeps a + countSleeps b := by
  induction a with
  | nil => simp [countSleeps]
  | cons e tr ih =>
    cases e <;> simp [countSleeps, ih] <;> omega

theorem countReadsOf_append (name : String) (a b : List Ev) :
    countReadsOf name (a ++ b) = countReadsOf name a + countReadsOf name b := by
  induction a with
  | nil => simp [countReadsOf]
  | cons e tr ih =>
    cases e <;> simp [countReadsOf, ih] <;> omega

theorem retryDelay_counts (env : Env) (s : St) (i : Nat) :
    countReadsOf NumTriesConfigName (retryDelay env s i).2 = 0 ∧
    countReadsOf RetryDelayMultiplierConfigName (retryDelay env s i).2 =
      countSleeps (retryDelay env s i).2 := by
  rcases Nat.eq_zero_or_pos i with hi | hi
  · subst hi
    exact ⟨rfl, rfl⟩
  · rw [retryDelay_pos env s i hi]
    constructor
    · simp [countReadsOf, NumTriesConfigName, RetryDelayMultiplierConfigName, countSleeps]
    · simp [countReadsOf, countSleeps]

theorem setAttempts_counts (env : Env) : ∀ (fuel i : Nat) (s : St),
    countReadsOf NumTriesConfigName (setAttempts env fuel i s).2.2 = 0 ∧
    countReadsOf RetryDelayMultiplierConfigName (setAttempts env fuel i s).2.2 =
      countSleeps (setAttempts env fuel i s).2.2 := by
  intro fuel
  induction fuel with
  | zero =>
    intro i s
    exact ⟨rfl, rfl⟩
  | succ n ih =>
    intro i s
    have hcnt := retryDelay_counts env s i
    rcases hrd : retryDelay env s i with ⟨s₁, tr₁⟩
    rw [hrd] at hcnt
    simp only [] at hcnt
    cases hb : env.backend s₁.calls with
    | transportErr =>
      simp only [setAttempts, hrd, doCall, hb]
      simp [countReadsOf_append, countSleeps_append, countReadsOf, countSleeps,
        hcnt.1, hcnt.2]
    | resp st body re =>
      simp only [setAttempts, hrd, doCall, hb]
      split
      · simp [countReadsOf_append, countSleeps_append, countReadsOf, countSleeps,
          hcnt.1, hcnt.2]
      · split
        · simp [countReadsOf_append, countSleeps_append, countReadsOf, countSleeps,
            hcnt.1, hcnt.2]
        · split
          · simp [countReadsOf_append, countSleeps_append, countReadsOf, countSleeps,
              hcnt.1, hcnt.2]
          · rcases hrec : setAttempts env n (i + 1) ⟨s₁.reads, s₁.calls + 1⟩ with ⟨r, s₃, tr₃⟩
            have IH := ih (i + 1) ⟨s₁.reads, s₁.calls + 1⟩
            rw [hrec] at IH
            simp only [] at IH
            simp [hrec, countReadsOf_append, countSleeps_append, countReadsOf, countSleeps,
              hcnt.1, hcnt.2, IH.1, IH.2]

theorem deleteAttempts_counts (env : Env) : ∀ (fuel i : Nat) (s : St),
    countReadsOf NumTriesConfigName (deleteAttempts env fuel i s).2.2 = 0 ∧
    countReadsOf RetryDelayMultiplierConfigName (deleteAttempts env fuel i s).2.2 =
      countSleeps (deleteAttempts env fuel i s).2.2 := by
  intro fuel
  induction fuel with
  | zero =>
    intro i s
    exact ⟨rfl, rfl⟩
  | succ n ih =>
    intro i s
    have hcnt := retryDelay_counts env s i
    rcases hrd : retryDelay env s i with ⟨s₁, tr₁⟩
    rw [hrd] at hcnt
    simp only [] at hcnt
    cases hb : env.backend s₁.calls with
    | transportErr =>
      simp only [deleteAttempts, hrd, doCall, hb]
      simp [countReadsOf_append, countSleeps_append, countReadsOf, countSleeps,
        hcnt.1, hcnt.2]
    | resp st body re =>
      simp only [deleteAttempts, hrd, doCall, hb]
      split
      · simp [countReadsOf_append, countSleeps_append, countReadsOf, countSleeps,
          hcnt.1, hcnt.2]
      · split
        · simp [countReadsOf_append, countSleeps_append, countReadsOf, countSleeps,
            hcnt.1, hcnt.2]
        · split
          · simp [countReadsOf_append, countSleeps_append, countReadsOf, countSleeps,
              hcnt.1, hcnt.2]
          · rcases hrec : deleteAttempts env n (i + 1) ⟨s₁.reads, s₁.calls + 1⟩ with ⟨r, s₃, tr₃⟩
            have IH := ih (i + 1) ⟨s₁.reads, s₁.calls + 1⟩
            rw [hrec] at IH
            simp only [] at IH
            simp [hrec, countReadsOf_append, countSleeps_append, countReadsOf, countSleeps,
              hcnt.1, hcnt.2, IH.1, IH.2]

theorem getAttempts_counts (env : Env) (cmd : GetRequest) (idx : Nat) (key : Bytes) :
    ∀ (fuel i : Nat) (s : St),
    countReadsOf NumTriesConfigName (getAttempts env cmd idx key fuel i s).2.2 = 0 ∧
    countReadsOf RetryDelayMultiplierConfigName (getAttempts env cmd idx key fuel i s).2.2 =
      countSleeps (getAttempts env cmd idx key fuel i s).2.2 := by
  intro fuel
  induction fuel with
  | zero =>
    intro i s
    exact ⟨rfl, rfl⟩
  | succ n ih =>
    intro i s
    have hcnt := retryDelay_counts env s i
    rcases hrd : retryDelay env s i with ⟨s₁, tr₁⟩
    rw [hrd] at hcnt
    simp only [] at hcnt
    cases hb : env.backend s₁.calls with
    | transportErr =>
      simp only [getAttempts, hrd, doCall, hb]
      simp [countReadsOf_append, countSleeps_append, countReadsOf, countSleeps,
        hcnt.1, hcnt.2]
    | resp st body re =>
      simp only [getAttempts, hrd, doCall, hb]
      split
      · cases hqo : cmd.quiet.get? idx <;> cases hoo : cmd.opaques.get? idx <;>
          simp [hqo, hoo, countReadsOf_append, countSleeps_append, countReadsOf, countSleeps,
            hcnt.1, hcnt.2]
      · split
        · cases hqo : cmd.quiet.get? idx <;> cases hoo : cmd.opaques.get? idx <;>
            simp [hqo, hoo, countReadsOf_append, countSleeps_append, countReadsOf, countSleeps,
              hcnt.1, hcnt.2]
        · split
          · simp [countReadsOf_append, countSleeps_append, countReadsOf, countSleeps,
              hcnt.1, hcnt.2]
          · rcases hrec : getAttempts env cmd idx key n (i + 1) ⟨s₁.reads, s₁.calls + 1⟩
              with ⟨r, s₃, tr₃⟩
            have IH := ih (i + 1) ⟨s₁.reads, s₁.calls + 1⟩
            rw [hrec] at IH
            simp only [] at IH
            simp [hrec, countReadsOf_append, countSleeps_append, countReadsOf, countSleeps,
              hcnt.1, hcnt.2, IH.1, IH.2]

theorem names_ne : NumTriesConfigName ≠ RetryDelayMultiplierConfigName := by decide

theorem realHandleGet_counts (env : Env) (cmd : GetRequest) :
    ∀ (keys : List Bytes) (idx : Nat) (s : St),
    countReadsOf NumTriesConfigName (realHandleGet env cmd idx keys s).2.2 =
      loopsStarted keys.length (realHandleGet env cmd idx keys s).1 ∧
    countReadsOf RetryDelayMultiplierConfigName (realHandleGet env cmd idx keys s).2.2 =
      countSleeps (realHandleGet env cmd idx keys s).2.2 := by
  intro keys
  induction keys with
  | nil =>
    intro idx s
    exact ⟨rfl, rfl⟩
  | cons key rest ih =>
    intro idx s
    have hga := getAttempts_counts env cmd idx key
      (env.store s.reads NumTriesConfigName DefaultNumTries).toNat 0 ⟨s.reads + 1, s.calls⟩
    rcases hg : getAttempts env cmd idx key
        (env.store s.reads NumTriesConfigName DefaultNumTries).toNat 0 ⟨s.reads + 1, s.calls⟩
      with ⟨step, s₂, tr₂⟩
    rw [hg] at hga
    simp only [] at hga
    cases step with
    | halt e =>
      simp only [realHandleGet, configGetAt, hg]
      refine ⟨?_, ?_⟩
      · simp [loopsStarted, countReadsOf_append, countReadsOf, hga.1]
      · simp [countReadsOf_append, countSleeps_append, countReadsOf, countSleeps,
          names_ne, hga.2]
    | panicOut =>
      simp only [realHandleGet, configGetAt, hg]
      refine ⟨?_, ?_⟩
      · simp [loopsStarted, countReadsOf_append, countReadsOf, hga.1]
      · simp [countReadsOf_append, countSleeps_append, countReadsOf, countSleeps,
          names_ne, hga.2]
    | hit r =>
      have IH := ih (idx + 1) s₂
      rcases hrest : realHandleGet env cmd (idx + 1) rest s₂ with ⟨rest', s₃, tr₃⟩
      rw [hrest] at IH
      simp only [] at IH
      cases rest' with
      | out rs e =>
        simp only [realHandleGet, configGetAt, hg, hrest]
        cases e with
        | none =>
          simp only [loopsStarted] at IH
          refine ⟨?_, ?_⟩
          · simp [loopsStarted, countReadsOf_append, countReadsOf, hga.1, IH.1]
            try omega
          · simp [countReadsOf_append, countSleeps_append, countReadsOf, countSleeps,
              names_ne, hga.2, IH.2]
            try omega
        | some e' =>
          simp only [loopsStarted] at IH
          refine ⟨?_, ?_⟩
          · simp [loopsStarted, countReadsOf_append, countReadsOf, hga.1, IH.1]
            try omega
          · simp [countReadsOf_append, countSleeps_append, countReadsOf, countSleeps,
              names_ne, hga.2, IH.2]
            try omega
      | panicked rs =>
        simp only [realHandleGet, configGetAt, hg, hrest]
        simp only [loopsStarted] at IH
        refine ⟨?_, ?_⟩
        · simp [loopsStarted, countReadsOf_append, countReadsOf, hga.1, IH.1]
          try omega
        · simp [countReadsOf_append, countSleeps_append, countReadsOf, countSleeps,
            names_ne, hga.2, IH.2]
          try omega

end httph

namespace httph

theorem backoffRun_append (b : BSt) (a c : List Ev) :
    backoffRun b (a ++ c) = backoffRun (backoffRun b a) c := by
  unfold backoffRun
  exact List.foldl_append _ _ _ _

theorem backoffRun_retryDelay (env : Env) (s : St) (i : Nat) :
    backoffRun ⟨i, none, true⟩ (retryDelay env s i).2 = ⟨i, none, true⟩ := by
  rcases Nat.eq_zero_or_pos i with hi | hi
  · subst hi
    rfl
  · rw [retryDelay_pos env s i hi]
    simp [backoffRun, backoffStep, Ne.symm names_ne, decide_eq_true hi]
    omega

theorem setAttempts_backoff (env : Env) : ∀ (fuel i : Nat) (s : St),
    (backoffRun ⟨i, none, true⟩ (setAttempts env fuel i s).2.2).ok = true := by
  intro fuel
  induction fuel with
  | zero =>
    intro i s
    rfl
  | succ n ih =>
    intro i s
    have hrdb := backoffRun_retryDelay env s i
    rcases hrd : retryDelay env s i with ⟨s₁, tr₁⟩
    rw [hrd] at hrdb
    simp only [] at hrdb
    cases hb : env.backend s₁.calls with
    | transportErr =>
      simp only [setAttempts, hrd, doCall, hb]
      rw [backoffRun_append, hrdb]
      rfl
    | resp st body re =>
      simp only [setAttempts, hrd, doCall, hb]
      split
      · rw [backoffRun_append, hrdb]
        rfl
      · split
        · rw [backoffRun_append, hrdb]
          rfl
        · split
          · rw [backoffRun_append, hrdb]
            rfl
          · rcases hrec : setAttempts env n (i + 1) ⟨s₁.reads, s₁.calls + 1⟩ with ⟨r, s₃, tr₃⟩
            have IH := ih (i + 1) ⟨s₁.reads, s₁.calls + 1⟩
            rw [hrec] at IH
            simp only [] at IH
            simp only [hrec]
            rw [backoffRun_append, backoffRun_append, hrdb]
            exact IH

theorem deleteAttempts_backoff (env : Env) : ∀ (fuel i : Nat) (s : St),
    (backoffRun ⟨i, none, true⟩ (deleteAttempts env fuel i s).2.2).ok = true := by
  intro fuel
  induction fuel with
  | zero =>
    intro i s
    rfl
  | succ n ih =>
    intro i s
    have hrdb := backoffRun_retryDelay env s i
    rcases hrd : retryDelay env s i with ⟨s₁, tr₁⟩
    rw [hrd] at hrdb
    simp only [] at hrdb
    cases hb : env.backend s₁.calls with
    | transportErr =>
      simp only [deleteAttempts, hrd, doCall, hb]
      rw [backoffRun_append, hrdb]
      rfl
    | resp st body re =>
      simp only [deleteAttempts, hrd, doCall, hb]
      split
      · rw [backoffRun_append, hrdb]
        rfl
      · split
        · rw [backoffRun_append, hrdb]
          rfl
        · split
          · rw [backoffRun_append, hrdb]
            rfl
          · rcases hrec : deleteAttempts env n (i + 1) ⟨s₁.reads, s₁.calls + 1⟩ with ⟨r, s₃, tr₃⟩
            have IH := ih (i + 1) ⟨s₁.reads, s₁.calls + 1⟩
            rw [hrec] at IH
            simp only [] at IH
            simp only [hrec]
            rw [backoffRun_append, backoffRun_append, hrdb]
            exact IH

theorem getAttempts_backoff (env : Env) (cmd : GetRequest) (idx : Nat) (key : Bytes) :
    ∀ (fuel i : Nat) (s : St),
    (backoffRun ⟨i, none, true⟩ (getAttempts env cmd idx key fuel i s).2.2).ok = true := by
  intro fuel
  induction fuel with
  | zero =>
    intro i s
    rfl
  | succ n ih =>
    intro i s
    have hrdb := backoffRun_retryDelay env s i
    rcases hrd : retryDelay env s i with ⟨s₁, tr₁⟩
    rw [hrd] at hrdb
    simp only [] at hrdb
    cases hb : env.backend s₁.calls with
    | transportErr =>
      simp only [getAttempts, hrd, doCall, hb]
      rw [backoffRun_append, hrdb]
      rfl
    | resp st body re =>
      simp only [getAttempts, hrd, doCall, hb]
      split
      · rcases cmd.quiet.get? idx with _ | q <;> rcases cmd.opaques.get? idx with _ | o <;>
          (rw [backoffRun_append, hrdb]; rfl)
      · split
        · rcases cmd.quiet.get? idx with _ | q <;> rcases cmd.opaques.get? idx with _ | o <;>
            (rw [backoffRun_append, hrdb]; rfl)
        · split
          · rw [backoffRun_append, hrdb]
            rfl
          · rcases hrec : getAttempts env cmd idx key n (i + 1) ⟨s₁.reads, s₁.calls + 1⟩
              with ⟨r, s₃, tr₃⟩
            have IH := ih (i + 1) ⟨s₁.reads, s₁.calls + 1⟩
            rw [hrec] at IH
            simp only [] at IH
            simp only [hrec]
            rw [backoffRun_append, backoffRun_append, hrdb]
            exact IH

theorem realHandleGet_backoff (env : Env) (cmd : GetRequest) :
    ∀ (keys : List Bytes) (idx : Nat) (s : St) (b : BSt), b.ok = true →
    (backoffRun b (realHandleGet env cmd idx keys s).2.2).ok = true := by
  intro keys
  induction keys with
  | nil =>
    intro idx s b hbok
    exact hbok
  | cons key rest ih =>
    intro idx s b hbok
    have hga := getAttempts_backoff env cmd idx key
      (env.store s.reads NumTriesConfigName DefaultNumTries).toNat 0 ⟨s.reads + 1, s.calls⟩
    rcases hg : getAttempts env cmd idx key
        (env.store s.reads NumTriesConfigName DefaultNumTries).toNat 0 ⟨s.reads + 1, s.calls⟩
      with ⟨step, s₂, tr₂⟩
    rw [hg] at hga
    simp only [] at hga
    have hnt : backoffRun b
        [Ev.confRead NumTriesConfigName (env.store s.reads NumTriesConfigName DefaultNumTries)] =
        ⟨0, none, true⟩ := by
      simp [backoffRun, backoffStep, hbok]
    cases step with
    | halt e =>
      simp only [realHandleGet, configGetAt, hg]
      rw [backoffRun_append, hnt]
      exact hga
    | panicOut =>
      simp only [realHandleGet, configGetAt, hg]
      rw [backoffRun_append, hnt]
      exact hga
    | hit r =>
      rcases hrest : realHandleGet env cmd (idx + 1) rest s₂ with ⟨rest', s₃, tr₃⟩
      have IH := ih (idx + 1) s₂
      rw [hrest] at IH
      simp only [] at IH
      cases rest' with
      | out rs e =>
        simp only [realHandleGet, configGetAt, hg, hrest]
        rw [backoffRun_append, backoffRun_append, hnt]
        exact IH _ hga
      | panicked rs =>
        simp only [realHandleGet, configGetAt, hg, hrest]
        rw [backoffRun_append, backoffRun_append, hnt]
        exact IH _ hga

end httph

namespace httph

theorem retryDelay_pos_counts (env : Env) (s : St) (i : Nat) (hi : 0 < i) :
    countSleeps (retryDelay env s i).2 = 1 ∧ countCalls (retryDelay env s i).2 = 0 := by
  rw [retryDelay_pos env s i hi]
  exact ⟨rfl, rfl⟩

theorem setAttempts_sleeps_pos (env : Env) : ∀ (fuel i : Nat) (s : St), 1 ≤ i →
    countSleeps (setAttempts env fuel i s).2.2 = countCalls (setAttempts env fuel i s).2.2 := by
  intro fuel
  induction fuel with
  | zero =>
    intro i s _
    rfl
  | succ n ih =>
    intro i s hi
    have hcnt := retryDelay_pos_counts env s i hi
    rcases hrd : retryDelay env s i with ⟨s₁, tr₁⟩
    rw [hrd] at hcnt
    simp only [] at hcnt
    cases hb : env.backend s₁.calls with
    | transportErr =>
      simp only [setAttempts, hrd, doCall, hb]
      simp [countSleeps_append, countCalls_append, countSleeps, countCalls, hcnt.1, hcnt.2]
    | resp st body re =>
      simp only [setAttempts, hrd, doCall, hb]
      split
      · simp [countSleeps_append, countCalls_append, countSleeps, countCalls, hcnt.1, hcnt.2]
      · split
        · simp [countSleeps_append, countCalls_append, countSleeps, countCalls, hcnt.1, hcnt.2]
        · split
          · simp [countSleeps_append, countCalls_append, countSleeps, countCalls, hcnt.1, hcnt.2]
          · rcases hrec : setAttempts env n (i + 1) ⟨s₁.reads, s₁.calls + 1⟩ with ⟨r, s₃, tr₃⟩
            have IH := ih (i + 1) ⟨s₁.reads, s₁.calls + 1⟩ (by omega)
            rw [hrec] at IH
            simp only [] at IH
            simp [hrec, countSleeps_append, countCalls_append, countSleeps, countCalls,
              hcnt.1, hcnt.2, IH]
            omega

theorem setAttempts_sleeps_zero (env : Env) (fuel : Nat) (s : St) :
    countSleeps (setAttempts env fuel 0 s).2.2 =
      countCalls (setAttempts env fuel 0 s).2.2 - 1 := by
  cases fuel with
  | zero => rfl
  | succ n =>
    cases hb : env.backend s.calls with
    | transportErr =>
      simp only [setAttempts, retryDelay_zero, doCall, hb]
      rfl
    | resp st body re =>
      simp only [setAttempts, retryDelay_zero, doCall, hb]
      split
      · rfl
      · split
        · rfl
        · split
          · rfl
          · rcases hrec : setAttempts env n 1 ⟨s.reads, s.calls + 1⟩ with ⟨r, s₃, tr₃⟩
            have IH := setAttempts_sleeps_pos env n 1 ⟨s.reads, s.calls + 1⟩ (by omega)
            rw [hrec] at IH
            simp only [] at IH
            simp [hrec, countSleeps_append, countCalls_append, countSleeps, countCalls, IH]

theorem deleteAttempts_sleeps_pos (env : Env) : ∀ (fuel i : Nat) (s : St), 1 ≤ i →
    countSleeps (deleteAttempts env fuel i s).2.2 =
      countCalls (deleteAttempts env fuel i s).2.2 := by
  intro fuel
  induction fuel with
  | zero =>
    intro i s _
    rfl
  | succ n ih =>
    intro i s hi
    have hcnt := retryDelay_pos_counts env s i hi
    rcases hrd : retryDelay env s i with ⟨s₁, tr₁⟩
    rw [hrd] at hcnt
    simp only [] at hcnt
    cases hb : env.backend s₁.calls with
    | transportErr =>
      simp only [deleteAttempts, hrd, doCall, hb]
      simp [countSleeps_append, countCalls_append, countSleeps, countCalls, hcnt.1, hcnt.2]
    | resp st body re =>
      simp only [deleteAttempts, hrd, doCall, hb]
      split
      · simp [countSleeps_append, countCalls_append, countSleeps, countCalls, hcnt.1, hcnt.2]
      · split
        · simp [countSleeps_append, countCalls_append, countSleeps, countCalls, hcnt.1, hcnt.2]
        · split
          · simp [countSleeps_append, countCalls_append, countSleeps, countCalls, hcnt.1, hcnt.2]
          · rcases hrec : deleteAttempts env n (i + 1) ⟨s₁.reads, s₁.calls + 1⟩ with ⟨r, s₃, tr₃⟩
            have IH := ih (i + 1) ⟨s₁.reads, s₁.calls + 1⟩ (by omega)
            rw [hrec] at IH
            simp only [] at IH
            simp [hrec, countSleeps_append, countCalls_append, countSleeps, countCalls,
              hcnt.1, hcnt.2, IH]
            omega

theorem deleteAttempts_sleeps_zero (env : Env) (fuel : Nat) (s : St) :
    countSleeps (deleteAttempts env fuel 0 s).2.2 =
      countCalls (deleteAttempts env fuel 0 s).2.2 - 1 := by
  cases fuel with
  | zero => rfl
  | succ n =>
    cases hb : env.backend s.calls with
    | transportErr =>
      simp only [deleteAttempts, retryDelay_zero, doCall, hb]
      rfl
    | resp st body re =>
      simp only [deleteAttempts, retryDelay_zero, doCall, hb]
      split
      · rfl
      · split
        · rfl
        · split
          · rfl
          · rcases hrec : deleteAttempts env n 1 ⟨s.reads, s.calls + 1⟩ with ⟨r, s₃, tr₃⟩
            have IH := deleteAttempts_sleeps_pos env n 1 ⟨s.reads, s.calls + 1⟩ (by omega)
            rw [hrec] at IH
            simp only [] at IH
            simp [hrec, countSleeps_append, countCalls_append, countSleeps, countCalls, IH]

end httph

namespace httph

theorem Set_backoffOK (env : Env) : backoffOK (Set env).2.2 = true := by
  show (backoffRun ⟨0, none, true⟩ (Ev.confRead NumTriesConfigName
      (env.store 0 NumTriesConfigName DefaultNumTries) ::
      (setAttempts env (env.store 0 NumTriesConfigName DefaultNumTries).toNat 0
        ⟨1, 0⟩).2.2)).ok = true
  unfold backoffRun
  simp only [List.foldl_cons]
  have hstep : backoffStep ⟨0, none, true⟩ (Ev.confRead NumTriesConfigName
      (env.store 0 NumTriesConfigName DefaultNumTries)) = ⟨0, none, true⟩ := by
    simp [backoffStep]
  rw [hstep]
  exact setAttempts_backoff env _ 0 ⟨1, 0⟩

theorem Delete_backoffOK (env : Env) : backoffOK (Delete env).2.2 = true := by
  show (backoffRun ⟨0, none, true⟩ (Ev.confRead NumTriesConfigName
      (env.store 0 NumTriesConfigName DefaultNumTries) ::
      (deleteAttempts env (env.store 0 NumTriesConfigName DefaultNumTries).toNat 0
        ⟨1, 0⟩).2.2)).ok = true
  unfold backoffRun
  simp only [List.foldl_cons]
  have hstep : backoffStep ⟨0, none, true⟩ (Ev.confRead NumTriesConfigName
      (env.store 0 NumTriesConfigName DefaultNumTries)) = ⟨0, none, true⟩ := by
    simp [backoffStep]
  rw [hstep]
  exact deleteAttempts_backoff env _ 0 ⟨1, 0⟩

theorem Get_backoffOK (env : Env) (cmd : GetRequest) : backoffOK (Get env cmd).2.2 = true :=
  realHandleGet_backoff env cmd cmd.keys 0 ⟨0, 0⟩ ⟨0, none, true⟩ rfl

theorem Set_sleeps (env : Env) :
    countSleeps (Set env).2.2 = countCalls (Set env).2.2 - 1 := by
  show countSleeps (Ev.confRead NumTriesConfigName
      (env.store 0 NumTriesConfigName DefaultNumTries) ::
      (setAttempts env (env.store 0 NumTriesConfigName DefaultNumTries).toNat 0 ⟨1, 0⟩).2.2) =
    countCalls (Ev.confRead NumTriesConfigName
      (env.store 0 NumTriesConfigName DefaultNumTries) ::
      (setAttempts env (env.store 0 NumTriesConfigName DefaultNumTries).toNat 0 ⟨1, 0⟩).2.2) - 1
  simp only [countSleeps, countCalls]
  exact setAttempts_sleeps_zero env _ ⟨1, 0⟩

theorem Delete_sleeps (env : Env) :
    countSleeps (Delete env).2.2 = countCalls (Delete env).2.2 - 1 := by
  show countSleeps (Ev.confRead NumTriesConfigName
      (env.store 0 NumTriesConfigName DefaultNumTries) ::
      (deleteAttempts env (env.store 0 NumTriesConfigName DefaultNumTries).toNat 0 ⟨1, 0⟩).2.2) =
    countCalls (Ev.confRead NumTriesConfigName
      (env.store 0 NumTriesConfigName DefaultNumTries) ::
      (deleteAttempts env (env.store 0 NumTriesConfigName DefaultNumTries).toNat 0 ⟨1, 0⟩).2.2) - 1
  simp only [countSleeps, countCalls]
  exact deleteAttempts_sleeps_zero env _ ⟨1, 0⟩

theorem Set_config_reads (env : Env) :
    countReadsOf NumTriesConfigName (Set env).2.2 = 1 ∧
    countReadsOf RetryDelayMultiplierConfigName (Set env).2.2 = countSleeps (Set env).2.2 := by
  have h := setAttempts_counts env (env.store 0 NumTriesConfigName DefaultNumTries).toNat 0 ⟨1, 0⟩
  constructor
  · show countReadsOf NumTriesConfigName (Ev.confRead NumTriesConfigName
        (env.store 0 NumTriesConfigName DefaultNumTries) ::
        (setAttempts env (env.store 0 NumTriesConfigName DefaultNumTries).toNat 0 ⟨1, 0⟩).2.2) = 1
    simp [countReadsOf, h.1]
  · show countReadsOf RetryDelayMultiplierConfigName (Ev.confRead NumTriesConfigName
        (env.store 0 NumTriesConfigName DefaultNumTries) ::
        (setAttempts env (env.store 0 NumTriesConfigName DefaultNumTries).toNat 0 ⟨1, 0⟩).2.2) =
      countSleeps (Ev.confRead NumTriesConfigName
        (env.store 0 NumTriesConfigName DefaultNumTries) ::
        (setAttempts env (env.store 0 NumTriesConfigName DefaultNumTries).toNat 0 ⟨1, 0⟩).2.2)
    simp [countReadsOf, countSleeps, names_ne, h.2]

theorem Delete_config_reads (env : Env) :
    countReadsOf NumTriesConfigName (Delete env).2.2 = 1 ∧
    countReadsOf RetryDelayMultiplierConfigName (Delete env).2.2 =
      countSleeps (Delete env).2.2 := by
  have h := deleteAttempts_counts env
    (env.store 0 NumTriesConfigName DefaultNumTries).toNat 0 ⟨1, 0⟩
  constructor
  · show countReadsOf NumTriesConfigName (Ev.confRead NumTriesConfigName
        (env.store 0 NumTriesConfigName DefaultNumTries) ::
        (deleteAttempts env (env.store 0 NumTriesConfigName DefaultNumTries).toNat 0 ⟨1, 0⟩).2.2) = 1
    simp [countReadsOf, h.1]
  · show countReadsOf RetryDelayMultiplierConfigName (Ev.confRead NumTriesConfigName
        (env.store 0 NumTriesConfigName DefaultNumTries) ::
        (deleteAttempts env (env.store 0 NumTriesConfigName DefaultNumTries).toNat 0 ⟨1, 0⟩).2.2) =
      countSleeps (Ev.confRead NumTriesConfigName
        (env.store 0 NumTriesConfigName DefaultNumTries) ::
        (deleteAttempts env (env.store 0 NumTriesConfigName DefaultNumTries).toNat 0 ⟨1, 0⟩).2.2)
    simp [countReadsOf, countSleeps, names_ne, h.2]

theorem Get_config_reads (env : Env) (cmd : GetRequest) :
    countReadsOf NumTriesConfigName (Get env cmd).2.2 =
      loopsStarted cmd.keys.length (Get env cmd).1 ∧
    countReadsOf RetryDelayMultiplierConfigName (Get env cmd).2.2 =
      countSleeps (Get env cmd).2.2 :=
  realHandleGet_counts env cmd cmd.keys 0 ⟨0, 0⟩

end httph

/-- C4 as stated is false.  Counterexample: a live store whose `numTries`
value is 2 at the operation's first read and 5 at every later read, and a
backend stuck on retryable 503.  Set makes exactly 2 HTTP calls yet reads
`numTries` exactly once — so the retry count is not read on every attempt
(1 < 2), and the value 5 published after the loop started does not take
effect for the remaining attempts (2 calls, not 5). -/
theorem claim_C4_counterexample :
    httph.countCalls (httph.Set ⟨fun r name d =>
        if name = httph.NumTriesConfigName then (if r = 0 then 2 else 5) else d,
      fun _ => .resp 503 [] false⟩).2.2 = 2 ∧
    httph.countReadsOf httph.NumTriesConfigName (httph.Set ⟨fun r name d =>
        if name = httph.NumTriesConfigName then (if r = 0 then 2 else 5) else d,
      fun _ => .resp 503 [] false⟩).2.2 = 1 ∧
    ¬(httph.countCalls (httph.Set ⟨fun r name d =>
        if name = httph.NumTriesConfigName then (if r = 0 then 2 else 5) else d,
      fun _ => .resp 503 [] false⟩).2.2 ≤
      httph.countReadsOf httph.NumTriesConfigName (httph.Set ⟨fun r name d =>
        if name = httph.NumTriesConfigName then (if r = 0 then 2 else 5) else d,
      fun _ => .resp 503 [] false⟩).2.2) ∧
    httph.countCalls (httph.Set ⟨fun r name d =>
        if name = httph.NumTriesConfigName then (if r = 0 then 2 else 5) else d,
      fun _ => .resp 503 [] false⟩).2.2 ≠ 5 := by
  decide

/-- C4 amended: on each operation the adapter reads `numTries` from the
Config Store exactly once, at the start of the retry loop (for Get, once
per key whose loop is entered), not on every attempt; only the backoff
multiplier is read on every wait (exactly one multiplier read per sleep).
Consequently a `numTries` change published between attempts of an in-flight
loop does not take effect for that loop's remaining attempts. -/
theorem claim_C4_config_read_schedule :
    (∀ env : httph.Env,
      httph.countReadsOf httph.NumTriesConfigName (httph.Set env).2.2 = 1 ∧
      httph.countReadsOf httph.RetryDelayMultiplierConfigName (httph.Set env).2.2 =
        httph.countSleeps (httph.Set env).2.2) ∧
    (∀ env : httph.Env,
      httph.countReadsOf httph.NumTriesConfigName (httph.Delete env).2.2 = 1 ∧
      httph.countReadsOf httph.RetryDelayMultiplierConfigName (httph.Delete env).2.2 =
        httph.countSleeps (httph.Delete env).2.2) ∧
    (∀ (env : httph.Env) (cmd : httph.GetRequest),
      httph.countReadsOf httph.NumTriesConfigName (httph.Get env cmd).2.2 =
        httph.loopsStarted cmd.keys.length (httph.Get env cmd).1 ∧
      httph.countReadsOf httph.RetryDelayMultiplierConfigName (httph.Get env cmd).2.2 =
        httph.countSleeps (httph.Get env cmd).2.2) :=
  ⟨fun env => httph.Set_config_reads env,
    fun env => httph.Delete_config_reads env,
    fun env cmd => httph.Get_config_reads env cmd⟩

namespace httph

theorem waitRun_append (w : WSt) (a c : List Ev) :
    waitRun w (a ++ c) = waitRun (waitRun w a) c := by
  unfold waitRun
  exact List.foldl_append _ _ _ _

theorem waitRun_attempt (env : Env) (s : St) (i n : Nat) (r : CallResult) :
    waitRun ⟨i, false, true⟩ ((retryDelay env s i).2 ++ [Ev.httpCall n r]) =
      ⟨i + 1, false, true⟩ := by
  rcases Nat.eq_zero_or_pos i with hi | hi
  · subst hi
    rfl
  · rw [retryDelay_pos env s i hi]
    simp [waitRun, waitStep, Ne.symm names_ne]

theorem setAttempts_wait (env : Env) : ∀ (fuel i : Nat) (s : St),
    (waitRun ⟨i, false, true⟩ (setAttempts env fuel i s).2.2).ok = true := by
  intro fuel
  induction fuel with
  | zero =>
    intro i s
    rfl
  | succ n ih =>
    intro i s
    rcases hrd : retryDelay env s i with ⟨s₁, tr₁⟩
    cases hb : env.backend s₁.calls with
    | transportErr =>
      have hwa := waitRun_attempt env s i s₁.calls CallResult.transportErr
      rw [hrd] at hwa
      simp only [] at hwa
      simp only [setAttempts, hrd, doCall, hb]
      rw [hwa]
    | resp st body re =>
      have hwa := waitRun_attempt env s i s₁.calls (CallResult.resp st body re)
      rw [hrd] at hwa
      simp only [] at hwa
      simp only [setAttempts, hrd, doCall, hb]
      split
      · rw [hwa]
      · split
        · rw [hwa]
        · split
          · rw [hwa]
          · rcases hrec : setAttempts env n (i + 1) ⟨s₁.reads, s₁.calls + 1⟩ with ⟨r, s₃, tr₃⟩
            have IH := ih (i + 1) ⟨s₁.reads, s₁.calls + 1⟩
            rw [hrec] at IH
            simp only [] at IH
            simp only [hrec]
            rw [waitRun_append, hwa]
            exact IH

theorem deleteAttempts_wait (env : Env) : ∀ (fuel i : Nat) (s : St),
    (waitRun ⟨i, false, true⟩ (deleteAttempts env fuel i s).2.2).ok = true := by
  intro fuel
  induction fuel with
  | zero =>
    intro i s
    rfl
  | succ n ih =>
    intro i s
    rcases hrd : retryDelay env s i with ⟨s₁, tr₁⟩
    cases hb : env.backend s₁.calls with
    | transportErr =>
      have hwa := waitRun_attempt env s i s₁.calls CallResult.transportErr
      rw [hrd] at hwa
      simp only [] at hwa
      simp only [deleteAttempts, hrd, doCall, hb]
      rw [hwa]
    | resp st body re =>
      have hwa := waitRun_attempt env s i s₁.calls (CallResult.resp st body re)
      rw [hrd] at hwa
      simp only [] at hwa
      simp only [deleteAttempts, hrd, doCall, hb]
      split
      · rw [hwa]
      · split
        · rw [hwa]
        · split
          · rw [hwa]
          · rcases hrec : deleteAttempts env n (i + 1) ⟨s₁.reads, s₁.calls + 1⟩ with ⟨r, s₃, tr₃⟩
            have IH := ih (i + 1) ⟨s₁.reads, s₁.calls + 1⟩
            rw [hrec] at IH
            simp only [] at IH
            simp only [hrec]
            rw [waitRun_append, hwa]
            exact IH

theorem getAttempts_wait (env : Env) (cmd : GetRequest) (idx : Nat) (key : Bytes) :
    ∀ (fuel i : Nat) (s : St),
    (waitRun ⟨i, false, true⟩ (getAttempts env cmd idx key fuel i s).2.2).ok = true := by
  intro fuel
  induction fuel with
  | zero =>
    intro i s
    rfl
  | succ n ih =>
    intro i s
    rcases hrd : retryDelay env s i with ⟨s₁, tr₁⟩
    cases hb : env.backend s₁.calls with
    | transportErr =>
      have hwa := waitRun_attempt env s i s₁.calls CallResult.transportErr
      rw [hrd] at hwa
      simp only [] at hwa
      simp only [getAttempts, hrd, doCall, hb]
      rw [hwa]
    | resp st body re =>
      have hwa := waitRun_attempt env s i s₁.calls (CallResult.resp st body re)
      rw [hrd] at hwa
      simp only [] at hwa
      simp only [getAttempts, hrd, doCall, hb]
      split
      · rcases cmd.quiet.get? idx with _ | q <;> rcases cmd.opaques.get? idx with _ | o <;>
          rw [hwa]
      · split
        · rcases cmd.quiet.get? idx with _ | q <;> rcases cmd.opaques.get? idx with _ | o <;>
            rw [hwa]
        · split
          · rw [hwa]
          · rcases hrec : getAttempts env cmd idx key n (i + 1) ⟨s₁.reads, s₁.calls + 1⟩
              with ⟨r, s₃, tr₃⟩
            have IH := ih (i + 1) ⟨s₁.reads, s₁.calls + 1⟩
            rw [hrec] at IH
            simp only [] at IH
            simp only [hrec]
            rw [waitRun_append, hwa]
            exact IH

theorem realHandleGet_wait (env : Env) (cmd : GetRequest) :
    ∀ (keys : List Bytes) (idx : Nat) (s : St) (w : WSt), w.ok = true →
    (waitRun w (realHandleGet env cmd idx keys s).2.2).ok = true := by
  intro keys
  induction keys with
  | nil =>
    intro idx s w hok
    exact hok
  | cons key rest ih =>
    intro idx s w hok
    have hga := getAttempts_wait env cmd idx key
      (env.store s.reads NumTriesConfigName DefaultNumTries).toNat 0 ⟨s.reads + 1, s.calls⟩
    rcases hg : getAttempts env cmd idx key
        (env.store s.reads NumTriesConfigName DefaultNumTries).toNat 0 ⟨s.reads + 1, s.calls⟩
      with ⟨step, s₂, tr₂⟩
    rw [hg] at hga
    simp only [] at hga
    have hnt : waitRun w
        [Ev.confRead NumTriesConfigName (env.store s.reads NumTriesConfigName DefaultNumTries)] =
        ⟨0, false, true⟩ := by
      simp [waitRun, waitStep, hok]
    cases step with
    | halt e =>
      simp only [realHandleGet, configGetAt, hg]
      rw [waitRun_append, hnt]
      exact hga
    | panicOut =>
      simp only [realHandleGet, configGetAt, hg]
      rw [waitRun_append, hnt]
      exact hga
    | hit r =>
      rcases hrest : realHandleGet env cmd (idx + 1) rest s₂ with ⟨rest2, s₃, tr₃⟩
      have IH := ih (idx + 1) s₂
      rw [hrest] at IH
      simp only [] at IH
      cases rest2 with
      | out rs e =>
        simp only [realHandleGet, configGetAt, hg, hrest]
        rw [waitRun_append, waitRun_append, hnt]
        exact IH _ hga
      | panicked rs =>
        simp only [realHandleGet, configGetAt, hg, hrest]
        rw [waitRun_append, waitRun_append, hnt]
        exact IH _ hga

theorem Set_retryWaitOK (env : Env) : retryWaitOK (Set env).2.2 = true := by
  show (waitRun ⟨0, false, true⟩ (Ev.confRead NumTriesConfigName
      (env.store 0 NumTriesConfigName DefaultNumTries) ::
      (setAttempts env (env.store 0 NumTriesConfigName DefaultNumTries).toNat 0
        ⟨1, 0⟩).2.2)).ok = true
  unfold waitRun
  simp only [List.foldl_cons]
  have hstep : waitStep ⟨0, false, true⟩ (Ev.confRead NumTriesConfigName
      (env.store 0 NumTriesConfigName DefaultNumTries)) = ⟨0, false, true⟩ := by
    simp [waitStep]
  rw [hstep]
  exact setAttempts_wait env _ 0 ⟨1, 0⟩

theorem Delete_retryWaitOK (env : Env) : retryWaitOK (Delete env).2.2 = true := by
  show (waitRun ⟨0, false, true⟩ (Ev.confRead NumTriesConfigName
      (env.store 0 NumTriesConfigName DefaultNumTries) ::
      (deleteAttempts env (env.store 0 NumTriesConfigName DefaultNumTries).toNat 0
        ⟨1, 0⟩).2.2)).ok = true
  unfold waitRun
  simp only [List.foldl_cons]
  have hstep : waitStep ⟨0, false, true⟩ (Ev.confRead NumTriesConfigName
      (env.store 0 NumTriesConfigName DefaultNumTries)) = ⟨0, false, true⟩ := by
    simp [waitStep]
  rw [hstep]
  exact deleteAttempts_wait env _ 0 ⟨1, 0⟩

theorem Get_retryWaitOK (env : Env) (cmd : GetRequest) :
    retryWaitOK (Get env cmd).2.2 = true :=
  realHandleGet_wait env cmd cmd.keys 0 ⟨0, 0⟩ ⟨0, false, true⟩ rfl

end httph

/-- C5: before retry attempt `i` (zero-indexed, `i ≥ 1`) of any operation's
retry loop the adapter waits exactly once, for exactly `i ×` multiplier
milliseconds, the multiplier being read fresh from the Config Store (key
`retryDelayMultiplier`, default 10) immediately before the wait, and no
delay at all occurs before the first attempt.  Every trace of every
operation passes both the timing checker (`backoffOK`: each sleep follows
a fresh multiplier read, lasts attempt-index × value-just-read ms, never
precedes the loop's first attempt) and the wait-occurrence checker
(`retryWaitOK`: each attempt after the first of its loop has exactly one
sleep since the previous call); for Set/Delete the sleep count is exactly
the call count minus one.  The last two conjuncts show neither checker is
vacuous: a retrying trace whose wait is missing, and one whose single wait
is mistimed, are both rejected. -/
theorem claim_C5_backoff_schedule :
    (∀ env : httph.Env, httph.backoffOK (httph.Set env).2.2 = true ∧
      httph.retryWaitOK (httph.Set env).2.2 = true ∧
      httph.countSleeps (httph.Set env).2.2 = httph.countCalls (httph.Set env).2.2 - 1) ∧
    (∀ env : httph.Env, httph.backoffOK (httph.Delete env).2.2 = true ∧
      httph.retryWaitOK (httph.Delete env).2.2 = true ∧
      httph.countSleeps (httph.Delete env).2.2 = httph.countCalls (httph.Delete env).2.2 - 1) ∧
    (∀ (env : httph.Env) (cmd : httph.GetRequest),
      httph.backoffOK (httph.Get env cmd).2.2 = true ∧
      httph.retryWaitOK (httph.Get env cmd).2.2 = true) ∧
    httph.retryWaitOK [.confRead httph.NumTriesConfigName 4,
      .httpCall 0 (.resp 503 [] false), .httpCall 1 (.resp 503 [] false)] = false ∧
    httph.backoffOK [.confRead httph.NumTriesConfigName 4,
      .httpCall 0 (.resp 503 [] false),
      .confRead httph.RetryDelayMultiplierConfigName 10, .sleep 5,
      .httpCall 1 (.resp 503 [] false)] = false :=
  ⟨fun env => ⟨httph.Set_backoffOK env, httph.Set_retryWaitOK env, httph.Set_sleeps env⟩,
    fun env => ⟨httph.Delete_backoffOK env, httph.Delete_retryWaitOK env,
      httph.Delete_sleeps env⟩,
    fun env cmd => ⟨httph.Get_backoffOK env cmd, httph.Get_retryWaitOK env cmd⟩,
    by decide, by decide⟩
